import Mathlib

/-!
The timeout-bounded read protocol of serialib (Windows build).

Shallow embedding of `src/serialib_win/serialib_win.cpp`:

* `timeOut::initTimer`, `timeOut::elapsedTime_ms`
* `serialib::readChar`
* `serialib::readStringNoTimeOut`
* `serialib::readString`

Machine integers.

The file is the Windows build of the library (it calls `CreateFileA`,
`SetCommTimeouts`, `ReadFile`), so the data model is the Windows one: `int`,
`long int`, `unsigned int` and `unsigned long int` are all 32 bits wide, and
`char` is signed. Unsigned values are `Nat` reduced modulo `2^32`
(`wrapU32`), signed values are `Int` reduced into `[-2^31, 2^31)` (`wrapS32`).
An out-of-range conversion or signed operation is modelled as two's-complement
wrap-around, which is what the compilers for this platform emit.

The platform.

`SetCommTimeouts`, `ReadFile` and `gettimeofday` are system calls. They are
modelled as oracles: `Platform.comm k` is what the `k`-th call of `readChar`
observes, `Platform.gettimeofday k` is what the `k`-th call of `gettimeofday`
returns. All theorems quantify over the oracles.

Loops.

The two `while` loops take a `fuel` argument, the maximal number of iterations
to be run. When the fuel runs out before a `return` statement is reached the
result is `none`, paired with the machine state reached so far.
-/

namespace Serialib

/-! ## Machine integers -/

/-- Conversion to a 32-bit unsigned integer (`unsigned int`, `unsigned long int`, `DWORD`). -/
def wrapU32 (x : Int) : Nat := (x % 4294967296).toNat

/-- Conversion to a 32-bit signed integer (`int`, `long int`). -/
def wrapS32 (x : Int) : Int := (x + 2147483648) % 4294967296 - 2147483648

/-! ## `class timeOut` -/

/-- The `struct timeval` filled by `gettimeofday`. -/
structure timeval where
  tv_sec : Int
  tv_usec : Int
deriving DecidableEq, Repr

/-- Source `timeOut::elapsedTime_ms`, lines 635-658. `previousTime` is the member set by
`initTimer`, `CurrentTime` is the value `gettimeofday` stores in the local variable. -/
def elapsedTime_ms (previousTime CurrentTime : timeval) : Nat :=
  -- sec=CurrentTime.tv_sec-previousTime.tv_sec;
  let sec : Int := wrapS32 (CurrentTime.tv_sec - previousTime.tv_sec)
  -- usec=CurrentTime.tv_usec-previousTime.tv_usec;
  let usec : Int := wrapS32 (CurrentTime.tv_usec - previousTime.tv_usec)
  if usec < 0 then
    -- usec=1000000-previousTime.tv_usec+CurrentTime.tv_usec;
    let usec : Int := wrapS32 (wrapS32 (1000000 - previousTime.tv_usec) + CurrentTime.tv_usec)
    -- sec--;
    let sec : Int := wrapS32 (sec - 1)
    -- return sec*1000+usec/1000;
    wrapU32 (wrapS32 (wrapS32 (sec * 1000) + Int.tdiv usec 1000))
  else
    -- return sec*1000+usec/1000;
    wrapU32 (wrapS32 (wrapS32 (sec * 1000) + Int.tdiv usec 1000))

/-- Source `timeOut::initTimer`, lines 624-627, and the call of `gettimeofday` at line 643:
the value the `k`-th call of `gettimeofday` returns is `gettimeofday k`. -/
def initTimer (gettimeofday : Nat → timeval) (k : Nat) : timeval := gettimeofday k

/-! ## The serial port -/

/-- One `char` of the destination buffer, as its bit pattern. -/
abbrev Byte := Fin 256

/-- What one call of `readChar` observes: the return values of `SetCommTimeouts` and of
`ReadFile`, and the byte `ReadFile` stored (`none` when `dwBytesRead` is 0). -/
structure CommResult where
  SetCommTimeouts : Bool
  ReadFile : Bool
  data : Option Byte
deriving DecidableEq, Repr

/-- The system calls the reader depends on, as oracles indexed by call number. -/
structure Platform where
  comm : Nat → CommResult
  gettimeofday : Nat → timeval

/-- State of one call of `readString` / `readStringNoTimeOut`.

* `receivedString i` is the content of `receivedString[i]`;
* `nbBytes` is the local variable `NbBytes` / `nbBytes`;
* `stores` lists the indices of `receivedString` stored to, most recent first;
* `calls` lists the `TimeOut_ms` argument of every call of `readChar`, most recent first;
* `ticks` counts the calls of `gettimeofday`.

The last three fields are a record of what the call did. The code never reads them; the
embedding uses `calls.length` and `ticks` to pick the next answer of the oracles. -/
structure Machine where
  receivedString : Nat → Byte
  nbBytes : Nat
  stores : List Nat
  calls : List Nat
  ticks : Nat

/-- State at function entry: nothing read, nothing stored. -/
def Machine.start (receivedString : Nat → Byte) : Machine :=
  { receivedString := receivedString, nbBytes := 0, stores := [], calls := [], ticks := 0 }

/-- The assignment `receivedString[i] = b`. -/
def Machine.store (m : Machine) (i : Nat) (b : Byte) : Machine :=
  { m with receivedString := Function.update m.receivedString i b, stores := i :: m.stores }

/-- State after a call of `readChar` with timeout `t` that stored nothing. -/
def Machine.called (m : Machine) (t : Nat) : Machine :=
  { m with calls := t :: m.calls }

/-- State after a call of `readChar` with timeout `t` that stored the byte `b` in
`receivedString[nbBytes]`, followed by the increment of `nbBytes`. -/
def Machine.push (m : Machine) (t : Nat) (b : Byte) : Machine :=
  { receivedString := Function.update m.receivedString m.nbBytes b
    nbBytes := m.nbBytes + 1
    stores := m.nbBytes :: m.stores
    calls := t :: m.calls
    ticks := m.ticks }

/-- State after `k` further calls of `gettimeofday`. -/
def Machine.tick (m : Machine) (k : Nat) : Machine :=
  { m with ticks := m.ticks + k }

/-- The `return` statement a call left through. -/
inductive Exit where
  | terminator
  | deadline
  | full
  | error
deriving DecidableEq, Repr

/-- A returned `int`, tagged with the `return` statement that produced it. -/
structure Return where
  site : Exit
  value : Int
deriving DecidableEq, Repr

/-- Modelled from the spec: the default value of the parameter `TimeOut_ms` of `readChar`,
declared in `serialib_win.h` (not part of the sources). The spec has the unbounded read call
the single-byte read "with no timeout", which `readChar` documents as the value zero. -/
def readChar_default_TimeOut_ms : Nat := 0

/-- Source `serialib::readChar`, lines 238-257, called with `pByte = &receivedString[pByte]`.
Returns the `char` result and the new state. -/
def readChar (P : Platform) (m : Machine) (pByte : Nat) (TimeOut_ms : Nat) : Int × Machine :=
  let r := P.comm m.calls.length
  let m := { m with calls := TimeOut_ms :: m.calls }
  -- if(!SetCommTimeouts(hSerial, &timeouts)) return -1;
  if r.SetCommTimeouts = false then (-1, m)
  -- if(!ReadFile(hSerial,pByte, 1, &dwBytesRead, NULL)) return -2;
  else if r.ReadFile = false then (-2, m)
  else
    match r.data with
    -- if (dwBytesRead==0) return 0;
    | none => (0, m)
    -- return 1;
    | some b => (1, m.store pByte b)

/-- Source `serialib::readStringNoTimeOut`, the `while` loop of lines 279-304. -/
def readStringNoTimeOut_loop (P : Platform) (FinalChar : Byte) (MaxNbBytes : Nat) :
    Nat → Machine → Option Return × Machine
  | 0, m => (none, m)
  | fuel + 1, m =>
    -- while (NbBytes<MaxNbBytes)
    if m.nbBytes < MaxNbBytes then
      -- charRead=readChar(&receivedString[NbBytes]);
      let r := readChar P m m.nbBytes readChar_default_TimeOut_ms
      let charRead := r.1
      let m := r.2
      if charRead = 1 then
        if m.receivedString m.nbBytes = FinalChar then
          -- receivedString  [++NbBytes]=0;
          let m := { m with nbBytes := wrapU32 (m.nbBytes + 1) }
          let m := m.store m.nbBytes 0
          -- return NbBytes;
          (some ⟨Exit.terminator, wrapS32 m.nbBytes⟩, m)
        else
          -- NbBytes++;
          let m := { m with nbBytes := wrapU32 (m.nbBytes + 1) }
          -- if (charRead<0) return charRead;
          if charRead < 0 then (some ⟨Exit.error, charRead⟩, m)
          else readStringNoTimeOut_loop P FinalChar MaxNbBytes fuel m
      else
        -- if (charRead<0) return charRead;
        if charRead < 0 then (some ⟨Exit.error, charRead⟩, m)
        else readStringNoTimeOut_loop P FinalChar MaxNbBytes fuel m
    else
      -- return -3;
      (some ⟨Exit.full, -3⟩, m)

/-- Source `serialib::readStringNoTimeOut`, lines 271-305. -/
def readStringNoTimeOut (fuel : Nat) (P : Platform) (receivedString : Nat → Byte)
    (FinalChar : Byte) (MaxNbBytes : Nat) : Option Return × Machine :=
  readStringNoTimeOut_loop P FinalChar MaxNbBytes fuel (Machine.start receivedString)

/-- Source `serialib::readString`, line 340: `timeOutParam = timeOut_ms-timer.elapsedTime_ms();`.
The difference is computed in `unsigned long int` and converted to `long int`. -/
def timeOutParam (timeOut_ms elapsed : Nat) : Int :=
  wrapS32 (wrapU32 ((timeOut_ms : Int) - (elapsed : Int)))

/-- Source `serialib::readString`, lines 343-365: the statement `if (timeOutParam>0) ...`.
The first component is `some` when a `return` statement inside it is reached. -/
def readString_attempt (P : Platform) (finalChar : Byte) (timeOutParam : Int) (m : Machine) :
    Option Return × Machine :=
  if timeOutParam > 0 then
    -- charRead=readChar(&receivedString[nbBytes],timeOutParam);
    let r := readChar P m m.nbBytes (wrapU32 timeOutParam)
    let charRead := r.1
    let m := r.2
    if charRead = 1 then
      if m.receivedString m.nbBytes = finalChar then
        -- receivedString  [++nbBytes]=0;
        let m := { m with nbBytes := wrapU32 (m.nbBytes + 1) }
        let m := m.store m.nbBytes 0
        -- return nbBytes;
        (some ⟨Exit.terminator, wrapS32 m.nbBytes⟩, m)
      else
        -- nbBytes++;
        let m := { m with nbBytes := wrapU32 (m.nbBytes + 1) }
        -- if (charRead<0) return charRead;
        if charRead < 0 then (some ⟨Exit.error, charRead⟩, m) else (none, m)
    else
      -- if (charRead<0) return charRead;
      if charRead < 0 then (some ⟨Exit.error, charRead⟩, m) else (none, m)
  else (none, m)

/-- Source `serialib::readString`, the `while` loop of lines 337-377. `previousTime` is the
member of the local `timer`. -/
def readString_loop (P : Platform) (previousTime : timeval) (finalChar : Byte)
    (maxNbBytes timeOut_ms : Nat) : Nat → Machine → Option Return × Machine
  | 0, m => (none, m)
  | fuel + 1, m =>
    -- while (nbBytes<maxNbBytes)
    if m.nbBytes < maxNbBytes then
      -- timeOutParam = timeOut_ms-timer.elapsedTime_ms();
      let e := elapsedTime_ms previousTime (P.gettimeofday m.ticks)
      let m := m.tick 1
      let r := readString_attempt P finalChar (timeOutParam timeOut_ms e) m
      -- a return statement was reached inside `if (timeOutParam>0)`
      if r.1.isSome then r
      else
        let m := r.2
        -- if (timer.elapsedTime_ms()>timeOut_ms)
        let e := elapsedTime_ms previousTime (P.gettimeofday m.ticks)
        let m := m.tick 1
        if e > timeOut_ms then
          -- receivedString[nbBytes]=0;
          let m := m.store m.nbBytes 0
          -- return 0;
          (some ⟨Exit.deadline, 0⟩, m)
        else readString_loop P previousTime finalChar maxNbBytes timeOut_ms fuel m
    else
      -- return -3;
      (some ⟨Exit.full, -3⟩, m)

/-- Source `serialib::readString`, lines 320-378. -/
def readString (fuel : Nat) (P : Platform) (receivedString : Nat → Byte) (finalChar : Byte)
    (maxNbBytes timeOut_ms : Nat) : Option Return × Machine :=
  -- if (timeOut_ms==0) return readStringNoTimeOut(receivedString,finalChar,maxNbBytes);
  if timeOut_ms = 0 then readStringNoTimeOut fuel P receivedString finalChar maxNbBytes
  else
    let m := Machine.start receivedString
    -- timer.initTimer();
    let previousTime := initTimer P.gettimeofday m.ticks
    let m := m.tick 1
    readString_loop P previousTime finalChar maxNbBytes timeOut_ms fuel m

/-! ## Vocabulary of the statements -/

/-- The `i`-th value `timer.elapsedTime_ms()` returns during a call of `readString` with a
timeout: iteration `j` of the loop takes reading `2 * j` at its top (line 340) and reading
`2 * j + 1` at its deadline check (line 367). -/
def reading (P : Platform) (i : Nat) : Nat :=
  elapsedTime_ms (P.gettimeofday 0) (P.gettimeofday (i + 1))

/-- The timeout iteration `i` hands to `readChar`, when each of the iterations `0 .. i` calls
`readChar`. -/
def budget (P : Platform) (T : Nat) (i : Nat) : Nat :=
  wrapU32 (timeOutParam T (reading P (2 * i)))

/-- The platform hands over the byte `b`: both system calls succeed and one byte is read. -/
def CommResult.byte (b : Byte) : CommResult :=
  { SetCommTimeouts := true, ReadFile := true, data := some b }

/-- The platform hands over nothing: both system calls succeed and no byte is read. -/
def CommResult.silence : CommResult :=
  { SetCommTimeouts := true, ReadFile := true, data := none }

/-- The byte a call of `readChar` stores, if any. -/
def CommResult.delivered (r : CommResult) : Option Byte :=
  if r.SetCommTimeouts = true ∧ r.ReadFile = true then r.data else none

/-- The bytes the first `c` calls of `readChar` store, in arrival order. -/
def received (P : Platform) (c : Nat) : List Byte :=
  (List.range c).filterMap (fun k => (P.comm k).delivered)

/-- A byte source that delivers the bytes of `bs` one per call and nothing afterwards. -/
def source (bs : List Byte) (k : Nat) : CommResult :=
  match bs.get? k with
  | some b => CommResult.byte b
  | none => CommResult.silence

/-- The first `n` cells of the destination buffer. -/
def Machine.contents (m : Machine) (n : Nat) : List Byte :=
  (List.range n).map m.receivedString

/-- State reached from function entry once each of the first `n` calls of `readChar` stored one
byte: `b i` is the byte stored by call `i`, `t i` the timeout call `i` was given, `tk` the
number of calls of `gettimeofday` made. -/
def Machine.filled (buf : Nat → Byte) (b : Nat → Byte) (t : Nat → Nat) (tk n : Nat) : Machine :=
  { receivedString := fun x => if x < n then b x else buf x
    nbBytes := n
    stores := (List.range n).reverse
    calls := ((List.range n).map t).reverse
    ticks := tk }

/-- The first `nbBytes` cells of the buffer hold the bytes received so far, in arrival
order. -/
def Inv (P : Platform) (m : Machine) : Prop :=
  m.contents m.nbBytes = received P m.calls.length

/-- What the returned value says about the `return` statement a call left through, for a call
with final character `F` that ended in state `m`. -/
def Told (F : Byte) (r : Return) (m : Machine) : Prop :=
  (r.value > 0 ↔ r.site = Exit.terminator)
  ∧ (r.value = 0 ↔ r.site = Exit.deadline)
  ∧ (r.value = -3 ↔ r.site = Exit.full)
  ∧ ((r.value = -1 ∨ r.value = -2) ↔ r.site = Exit.error)
  ∧ (r.site = Exit.terminator →
      r.value = (m.nbBytes : Int) ∧ 1 ≤ m.nbBytes ∧ m.receivedString (m.nbBytes - 1) = F
        ∧ m.receivedString m.nbBytes = 0)

/-- No more than `Max` bytes are counted and no store goes beyond index `Max`. -/
def Safe (Max : Nat) (m : Machine) : Prop :=
  m.nbBytes ≤ Max ∧ ∀ i, i ∈ m.stores → i ≤ Max

/-- The number of iterations among the first `k` of the loop of `readString` that compute a
positive `timeOutParam` at their top, that is, that call `readChar`. -/
def attempts (P : Platform) (T : Nat) : Nat → Nat
  | 0 => 0
  | k + 1 => attempts P T k + (if 0 < timeOutParam T (reading P (2 * k)) then 1 else 0)

/-- The state `m` was reached from the buffer `buf` by `n` calls of `readChar` that stored the
bytes `b 0 .. b (n-1)`, and by nothing else. -/
def Filled (buf b : Nat → Byte) (n : Nat) (m : Machine) : Prop :=
  m.nbBytes = n ∧ m.calls.length = n ∧ m.stores = (List.range n).reverse
    ∧ (∀ i, i < n → m.receivedString i = b i)
    ∧ (∀ x, n ≤ x → m.receivedString x = buf x)

/-! ## Concrete platforms and buffers -/

/-- A clock that does not advance: every call of `gettimeofday` returns the same instant. -/
def frozen : Nat → timeval := fun _ => ⟨0, 0⟩

/-- A destination buffer filled with the byte 255. -/
def blank : Nat → Byte := fun _ => 255

/-- The stream `"OK\r"`. -/
def okcr : Nat → Byte := fun i => [79, 75, 13].getD i 0

/-- A platform that delivers `"OK\r"` and then nothing, under a frozen clock. -/
def P_okcr : Platform := { comm := source [79, 75, 13], gettimeofday := frozen }

/-- A stream of `2^31 - 1` bytes `'x'` followed by `'\r'`. -/
def longLine : Nat → Byte := fun i => if i + 1 = 2147483648 then 13 else 120

/-- A platform that delivers `longLine`, under a frozen clock. -/
def P_long : Platform :=
  { comm := fun i => CommResult.byte (longLine i), gettimeofday := frozen }

/-- A platform that delivers `'A'` and then nothing; the fourth elapsed-time reading, taken at
the deadline check of the second iteration, is 51 ms, the earlier ones are 0 ms. -/
def P_A : Platform :=
  { comm := source [65], gettimeofday := fun k => if k < 4 then ⟨0, 0⟩ else ⟨0, 51000⟩ }

/-- An endless stream of `'x'`, under a frozen clock. -/
def P_x : Platform := { comm := fun _ => CommResult.byte 120, gettimeofday := frozen }

/-- A platform that delivers `"OK"` and whose third `ReadFile` fails, under a frozen clock. -/
def P_fail : Platform :=
  { comm := fun i => if i < 2 then CommResult.byte (okcr i)
      else { SetCommTimeouts := true, ReadFile := false, data := none }
    gettimeofday := frozen }

/-- A stream of `2^32 - 4` bytes `'x'` followed by `'\r'`. -/
def hugeLine : Nat → Byte := fun i => if i + 1 = 4294967293 then 13 else 120

/-- A platform that delivers `hugeLine`, under a frozen clock. -/
def P_huge : Platform :=
  { comm := fun i => CommResult.byte (hugeLine i), gettimeofday := frozen }

/-- An endless stream of `'x'`, under a wall clock that is set back by 296 ms after
`initTimer`: the reference instant is (10 s, 0 us), every later instant is (9 s, 704000 us). -/
def P_back : Platform :=
  { comm := fun _ => CommResult.byte 120
    gettimeofday := fun k => if k = 0 then ⟨10, 0⟩ else ⟨9, 704000⟩ }

/-- A source that never delivers a byte; the elapsed-time readings are 0 ms three times and
51 ms from then on. -/
def P_mute : Platform :=
  { comm := fun _ => CommResult.silence
    gettimeofday := fun k => if k < 4 then ⟨0, 0⟩ else ⟨0, 51000⟩ }

/-- An endless stream of `'x'`, under a clock that advances: the first elapsed-time reading is
0 ms, every later one is 1000000000 ms. -/
def P_x_slow : Platform :=
  { comm := fun _ => CommResult.byte 120
    gettimeofday := fun k => if k ≤ 1 then ⟨0, 0⟩ else ⟨1000000, 0⟩ }

/-! ## Machine integers: basic facts -/

theorem wrapS32_of_range (x : Int) (h1 : -2147483648 ≤ x) (h2 : x < 2147483648) :
    wrapS32 x = x := by
  unfold wrapS32; omega

theorem wrapU32_of_range (x : Int) (h1 : 0 ≤ x) (h2 : x < 4294967296) :
    (wrapU32 x : Int) = x := by
  unfold wrapU32; omega

theorem wrapU32_lt (x : Int) : wrapU32 x < 4294967296 := by
  unfold wrapU32; omega

theorem wrapU32_succ (n : Nat) (h : n + 1 < 4294967296) : wrapU32 ((n : Int) + 1) = n + 1 := by
  unfold wrapU32; omega

/-- Inside the window `0 < T - e < 2^31` the remaining time is computed exactly. -/
theorem timeOutParam_window (T e : Nat) (h1 : e < T) (h2 : T < e + 2147483648) :
    timeOutParam T e = (T : Int) - (e : Int) := by
  unfold timeOutParam wrapS32 wrapU32; omega

/-! ## The timer -/

/-- Value of `elapsedTime_ms` for a current instant not earlier than the reference instant,
both with a microsecond field in `[0, 999999]`, when the millisecond count fits an `int`. -/
theorem elapsedTime_ms_exact (s0 u0 s1 u1 : Int)
    (hu0 : 0 ≤ u0 ∧ u0 ≤ 999999) (hu1 : 0 ≤ u1 ∧ u1 ≤ 999999)
    (hle : s0 < s1 ∨ (s0 = s1 ∧ u0 ≤ u1))
    (hfit : ((s1 - s0) * 1000000 + (u1 - u0)) / 1000 < 2147483648) :
    (elapsedTime_ms ⟨s0, u0⟩ ⟨s1, u1⟩ : Int) = ((s1 - s0) * 1000000 + (u1 - u0)) / 1000 := by
  obtain ⟨hu0a, hu0b⟩ := hu0
  obtain ⟨hu1a, hu1b⟩ := hu1
  have hsec : wrapS32 (s1 - s0) = s1 - s0 := by
    apply wrapS32_of_range <;> omega
  have husec : wrapS32 (u1 - u0) = u1 - u0 := by
    apply wrapS32_of_range <;> omega
  unfold elapsedTime_ms
  simp only [hsec, husec]
  by_cases hneg : u1 - u0 < 0
  · have h1 : wrapS32 (1000000 - u0) = 1000000 - u0 := by
      apply wrapS32_of_range <;> omega
    have h2 : wrapS32 (1000000 - u0 + u1) = 1000000 - u0 + u1 := by
      apply wrapS32_of_range <;> omega
    have h3 : wrapS32 (s1 - s0 - 1) = s1 - s0 - 1 := by
      apply wrapS32_of_range <;> omega
    have h4 : Int.tdiv (1000000 - u0 + u1) 1000 = (1000000 - u0 + u1) / 1000 :=
      Int.tdiv_eq_ediv (by omega) (by omega)
    have h5 : wrapS32 ((s1 - s0 - 1) * 1000) = (s1 - s0 - 1) * 1000 := by
      apply wrapS32_of_range <;> omega
    have h6 : wrapS32 ((s1 - s0 - 1) * 1000 + (1000000 - u0 + u1) / 1000)
        = (s1 - s0 - 1) * 1000 + (1000000 - u0 + u1) / 1000 := by
      apply wrapS32_of_range <;> omega
    rw [if_pos hneg]
    simp only [h1, h2, h3, h4, h5, h6]
    rw [wrapU32_of_range _ (by omega) (by omega)]
    omega
  · have h4 : Int.tdiv (u1 - u0) 1000 = (u1 - u0) / 1000 :=
      Int.tdiv_eq_ediv (by omega) (by omega)
    have h5 : wrapS32 ((s1 - s0) * 1000) = (s1 - s0) * 1000 := by
      apply wrapS32_of_range <;> omega
    have h6 : wrapS32 ((s1 - s0) * 1000 + (u1 - u0) / 1000)
        = (s1 - s0) * 1000 + (u1 - u0) / 1000 := by
      apply wrapS32_of_range <;> omega
    rw [if_neg hneg]
    simp only [h4, h5, h6]
    rw [wrapU32_of_range _ (by omega) (by omega)]
    omega

/-! ## `readChar` -/

/-- The result of `readChar` is one of 1, 0, -1 and -2, and a byte is stored exactly when it
is 1. -/
theorem readChar_cases (P : Platform) (m : Machine) (i T : Nat) :
    (∃ b, P.comm m.calls.length = CommResult.byte b
        ∧ readChar P m i T = (1, (m.called T).store i b))
    ∨ (P.comm m.calls.length = CommResult.silence ∧ readChar P m i T = (0, m.called T))
    ∨ ((P.comm m.calls.length).SetCommTimeouts = false
        ∧ readChar P m i T = (-1, m.called T))
    ∨ ((P.comm m.calls.length).SetCommTimeouts = true
        ∧ (P.comm m.calls.length).ReadFile = false
        ∧ readChar P m i T = (-2, m.called T)) := by
  unfold readChar
  rcases hc : P.comm m.calls.length with ⟨s, r, d⟩
  cases s <;> cases r <;> cases d <;>
    simp [CommResult.byte, CommResult.silence, Machine.called]

theorem readChar_byte (P : Platform) (m : Machine) (i T : Nat) (b : Byte)
    (h : P.comm m.calls.length = CommResult.byte b) :
    readChar P m i T = (1, (m.called T).store i b) := by
  simp [readChar, h, CommResult.byte, Machine.called]

theorem readChar_silence (P : Platform) (m : Machine) (i T : Nat)
    (h : P.comm m.calls.length = CommResult.silence) :
    readChar P m i T = (0, m.called T) := by
  simp [readChar, h, CommResult.silence, Machine.called]

theorem push_eq (m : Machine) (t : Nat) (b : Byte) :
    ({ (m.called t).store m.nbBytes b with nbBytes := m.nbBytes + 1 } : Machine)
      = m.push t b := rfl

/-! ## One iteration of `readStringNoTimeOut` -/

/-- The loop is left with -3 once `MaxNbBytes` bytes are stored. -/
theorem noTimeOut_full (P : Platform) (F : Byte) (Max : Nat) (m : Machine) (fuel : Nat)
    (h : ¬ m.nbBytes < Max) :
    readStringNoTimeOut_loop P F Max (fuel + 1) m = (some ⟨Exit.full, -3⟩, m) := by
  rw [readStringNoTimeOut_loop, if_neg h]

/-- An iteration that stores a byte other than the final character. -/
theorem noTimeOut_byte (P : Platform) (F : Byte) (Max : Nat) (m : Machine) (fuel : Nat)
    (b : Byte) (hn : m.nbBytes < Max) (hMax : Max < 4294967296)
    (hc : P.comm m.calls.length = CommResult.byte b) (hb : b ≠ F) :
    readStringNoTimeOut_loop P F Max (fuel + 1) m
      = readStringNoTimeOut_loop P F Max fuel (m.push 0 b) := by
  rw [readStringNoTimeOut_loop]
  simp only [hn, if_true, readChar_byte P m _ _ b hc, Machine.store, Machine.called,
    Function.update_same, hb, if_false, wrapU32_succ m.nbBytes (by omega),
    readChar_default_TimeOut_ms, show ¬ ((1 : Int) < 0) by decide]
  rfl

/-- The iteration that stores the final character. -/
theorem noTimeOut_final (P : Platform) (F : Byte) (Max : Nat) (m : Machine) (fuel : Nat)
    (hn : m.nbBytes < Max) (hMax : Max < 4294967296)
    (hc : P.comm m.calls.length = CommResult.byte F) :
    readStringNoTimeOut_loop P F Max (fuel + 1) m
      = (some ⟨Exit.terminator, wrapS32 ((m.nbBytes + 1 : Nat) : Int)⟩,
          (m.push 0 F).store (m.nbBytes + 1) 0) := by
  rw [readStringNoTimeOut_loop]
  simp only [hn, if_true, readChar_byte P m _ _ F hc, Machine.store, Machine.called,
    Function.update_same, if_true, wrapU32_succ m.nbBytes (by omega),
    readChar_default_TimeOut_ms]
  rfl

/-- An iteration in which `readChar` stores nothing: the result is 0, -1 or -2. -/
theorem noTimeOut_nothing (P : Platform) (F : Byte) (Max : Nat) (m : Machine) (fuel : Nat)
    (hn : m.nbBytes < Max) (c : Int)
    (hr : readChar P m m.nbBytes 0 = (c, m.called 0)) (hc : c = 0 ∨ c = -1 ∨ c = -2) :
    readStringNoTimeOut_loop P F Max (fuel + 1) m
      = if c = 0 then readStringNoTimeOut_loop P F Max fuel (m.called 0)
        else (some ⟨Exit.error, c⟩, m.called 0) := by
  rw [readStringNoTimeOut_loop]
  simp only [hn, if_true, readChar_default_TimeOut_ms, hr]
  rcases hc with h | h | h <;> subst h <;> simp

/-! ## `readStringNoTimeOut`: runs in which every call of `readChar` stores a byte -/

theorem filled_succ (buf b : Nat → Byte) (t : Nat → Nat) (tk n : Nat) :
    (Machine.filled buf b t tk n).push (t n) (b n) = Machine.filled buf b t tk (n + 1) := by
  simp only [Machine.filled, Machine.push, List.range_succ, List.map_append,
    List.reverse_append, List.map_cons, List.map_nil, List.reverse_cons, List.reverse_nil,
    List.nil_append, List.singleton_append, Machine.mk.injEq, and_true, true_and]
  funext x
  by_cases hx : x = n
  · subst hx; simp
  · rw [Function.update_noteq hx]
    by_cases h1 : x < n
    · have : x < n + 1 := by omega
      simp [h1, this]
    · have : ¬ x < n + 1 := by omega
      simp [h1, this]

theorem filled_calls_length (buf b : Nat → Byte) (t : Nat → Nat) (tk n : Nat) :
    (Machine.filled buf b t tk n).calls.length = n := by
  simp [Machine.filled]

theorem filled_zero (buf b : Nat → Byte) (t : Nat → Nat) (tk : Nat) :
    Machine.filled buf b t tk 0 = (Machine.start buf).tick tk := by
  simp [Machine.filled, Machine.start, Machine.tick]

/-- Iterations `0 .. n-1` each store a byte other than the final character. -/
theorem noTimeOut_run (P : Platform) (F : Byte) (Max : Nat) (buf b : Nat → Byte)
    (hMax : Max < 4294967296) (n : Nat) (hn : n ≤ Max)
    (hc : ∀ i, i < n → P.comm i = CommResult.byte (b i) ∧ b i ≠ F) (fuel : Nat) :
    readStringNoTimeOut_loop P F Max (n + fuel) (Machine.start buf)
      = readStringNoTimeOut_loop P F Max fuel (Machine.filled buf b (fun _ => 0) 0 n) := by
  induction n generalizing fuel with
  | zero => rw [Nat.zero_add, filled_zero]; rfl
  | succ k ih =>
    have h1 : k + 1 + fuel = k + (fuel + 1) := by omega
    rw [h1, ih (by omega) (fun i hi => hc i (by omega)) (fuel + 1),
      ← filled_succ buf b (fun _ => 0) 0 k]
    exact noTimeOut_byte P F Max _ fuel (b k) (by simp [Machine.filled]; omega) hMax
      (by rw [filled_calls_length]; exact (hc k (by omega)).1) (hc k (by omega)).2

/-! ## One iteration of `readString` -/

theorem attempt_skip (P : Platform) (F : Byte) (tp : Int) (m : Machine) (h : ¬ tp > 0) :
    readString_attempt P F tp m = (none, m) := by
  rw [readString_attempt, if_neg h]

theorem attempt_byte (P : Platform) (F : Byte) (tp : Int) (m : Machine) (b : Byte)
    (h : tp > 0) (hnb : m.nbBytes + 1 < 4294967296)
    (hc : P.comm m.calls.length = CommResult.byte b) (hb : b ≠ F) :
    readString_attempt P F tp m = (none, m.push (wrapU32 tp) b) := by
  rw [readString_attempt]
  simp only [h, if_true, readChar_byte P m _ _ b hc, Machine.store, Machine.called,
    Function.update_same, hb, if_false, wrapU32_succ m.nbBytes hnb,
    show ¬ ((1 : Int) < 0) by decide]
  rfl

theorem attempt_final (P : Platform) (F : Byte) (tp : Int) (m : Machine)
    (h : tp > 0) (hnb : m.nbBytes + 1 < 4294967296)
    (hc : P.comm m.calls.length = CommResult.byte F) :
    readString_attempt P F tp m
      = (some ⟨Exit.terminator, wrapS32 ((m.nbBytes + 1 : Nat) : Int)⟩,
          (m.push (wrapU32 tp) F).store (m.nbBytes + 1) 0) := by
  rw [readString_attempt]
  simp only [h, if_true, readChar_byte P m _ _ F hc, Machine.store, Machine.called,
    Function.update_same, wrapU32_succ m.nbBytes hnb]
  rfl

theorem attempt_nothing (P : Platform) (F : Byte) (tp : Int) (m : Machine) (h : tp > 0)
    (c : Int) (hr : readChar P m m.nbBytes (wrapU32 tp) = (c, m.called (wrapU32 tp)))
    (hc : c = 0 ∨ c = -1 ∨ c = -2) :
    readString_attempt P F tp m
      = (if c = 0 then none else some ⟨Exit.error, c⟩, m.called (wrapU32 tp)) := by
  rw [readString_attempt]
  simp only [h, if_true, hr]
  rcases hc with h | h | h <;> subst h <;> simp

/-- The loop is left with -3 once `maxNbBytes` bytes are stored. -/
theorem timed_full (P : Platform) (prev : timeval) (F : Byte) (Max T : Nat) (m : Machine)
    (fuel : Nat) (h : ¬ m.nbBytes < Max) :
    readString_loop P prev F Max T (fuel + 1) m = (some ⟨Exit.full, -3⟩, m) := by
  rw [readString_loop, if_neg h]

/-- An iteration whose read attempt reaches a `return` statement. -/
theorem timed_return (P : Platform) (prev : timeval) (F : Byte) (Max T : Nat) (m : Machine)
    (fuel : Nat) (h : m.nbBytes < Max) (ret : Return) (m1 : Machine)
    (ha : readString_attempt P F
      (timeOutParam T (elapsedTime_ms prev (P.gettimeofday m.ticks))) (m.tick 1)
        = (some ret, m1)) :
    readString_loop P prev F Max T (fuel + 1) m = (some ret, m1) := by
  rw [readString_loop, if_pos h]
  dsimp only
  rw [ha]
  exact if_pos rfl

/-- An iteration whose read attempt falls through to the deadline check. -/
theorem timed_check (P : Platform) (prev : timeval) (F : Byte) (Max T : Nat) (m : Machine)
    (fuel : Nat) (h : m.nbBytes < Max) (m1 : Machine)
    (ha : readString_attempt P F
      (timeOutParam T (elapsedTime_ms prev (P.gettimeofday m.ticks))) (m.tick 1)
        = (none, m1)) :
    readString_loop P prev F Max T (fuel + 1) m
      = if elapsedTime_ms prev (P.gettimeofday m1.ticks) > T
        then (some ⟨Exit.deadline, 0⟩, (m1.tick 1).store m1.nbBytes 0)
        else readString_loop P prev F Max T fuel (m1.tick 1) := by
  rw [readString_loop, if_pos h]
  dsimp only
  rw [ha]
  exact if_neg (by simp)

/-! ## `readString`: runs in which every iteration stores a byte -/

/-- Iterations `0 .. n-1` each call `readChar`, store a byte other than the final character
and pass the deadline check. -/
theorem timed_run (P : Platform) (F : Byte) (Max T : Nat) (buf b : Nat → Byte)
    (hMax : Max < 4294967296) (n : Nat) (hn : n ≤ Max)
    (hc : ∀ i, i < n → P.comm i = CommResult.byte (b i) ∧ b i ≠ F)
    (htop : ∀ i, i < n → 0 < timeOutParam T (reading P (2 * i)))
    (hchk : ∀ i, i < n → reading P (2 * i + 1) ≤ T) (fuel : Nat) :
    readString_loop P (P.gettimeofday 0) F Max T (n + fuel) ((Machine.start buf).tick 1)
      = readString_loop P (P.gettimeofday 0) F Max T fuel
          (Machine.filled buf b (budget P T) (2 * n + 1) n) := by
  induction n generalizing fuel with
  | zero => rw [Nat.zero_add, filled_zero]
  | succ k ih =>
    have h1 : k + 1 + fuel = k + (fuel + 1) := by omega
    rw [h1, ih (by omega) (fun i hi => hc i (by omega)) (fun i hi => htop i (by omega))
      (fun i hi => hchk i (by omega)) (fuel + 1)]
    have hk : (Machine.filled buf b (budget P T) (2 * k + 1) k).nbBytes < Max := by
      simp [Machine.filled]; omega
    have ha := attempt_byte P F (timeOutParam T (reading P (2 * k)))
      ((Machine.filled buf b (budget P T) (2 * k + 1) k).tick 1) (b k) (htop k (by omega))
      (by simp [Machine.filled, Machine.tick]; omega)
      (by simp [Machine.filled, Machine.tick]; exact (hc k (by omega)).1) (hc k (by omega)).2
    rw [timed_check P _ F Max T _ fuel hk _ ha]
    have hd : ¬ elapsedTime_ms (P.gettimeofday 0) (P.gettimeofday (2 * k + 1 + 1)) > T := by
      have := hchk k (by omega)
      unfold reading at this
      omega
    refine (if_neg hd).trans ?_
    rw [← filled_succ buf b (budget P T) (2 * (k + 1) + 1) k]
    rfl

/-- The run of `readString` in which calls `0 .. k-1` of `readChar` store `b 0 .. b (k-1)`
and `b (k-1)` is the first occurrence of the final character. The returned value is the
count `k` converted to `int`. -/
theorem timed_success (P : Platform) (F : Byte) (Max T : Nat) (buf b : Nat → Byte)
    (k : Nat) (hk : 1 ≤ k) (hkM : k ≤ Max) (hMax : Max < 4294967296) (hT : 0 < T)
    (hc : ∀ i, i < k → P.comm i = CommResult.byte (b i))
    (hfirst : ∀ i, i + 1 < k → b i ≠ F) (hlast : b (k - 1) = F)
    (htop : ∀ i, i < k → 0 < timeOutParam T (reading P (2 * i)))
    (hchk : ∀ i, i + 1 < k → reading P (2 * i + 1) ≤ T) (fuel : Nat) :
    readString (k + fuel) P buf F Max T
      = (some ⟨Exit.terminator, wrapS32 (k : Int)⟩,
          (Machine.filled buf b (budget P T) (2 * k) k).store k 0) := by
  obtain ⟨n, rfl⟩ : ∃ n, k = n + 1 := ⟨k - 1, by omega⟩
  have hrun := timed_run P F Max T buf b hMax n (by omega)
    (fun i hi => ⟨hc i (by omega), hfirst i (by omega)⟩) (fun i hi => htop i (by omega))
    (fun i hi => hchk i (by omega)) (1 + fuel)
  have hfuel : n + 1 + fuel = n + (1 + fuel) := by omega
  have hT0 : ¬ T = 0 := by omega
  unfold readString
  rw [if_neg hT0]
  show readString_loop P (P.gettimeofday 0) F Max T (n + 1 + fuel) ((Machine.start buf).tick 1)
    = _
  rw [hfuel, hrun, Nat.add_comm 1 fuel]
  have hn : (Machine.filled buf b (budget P T) (2 * n + 1) n).nbBytes < Max := by
    simp [Machine.filled]; omega
  have hcn : P.comm n = CommResult.byte F := by
    have := hc n (by omega)
    rw [this]
    simp only [Nat.add_sub_cancel] at hlast
    rw [hlast]
  have ha := attempt_final P F (timeOutParam T (reading P (2 * n)))
    ((Machine.filled buf b (budget P T) (2 * n + 1) n).tick 1) (htop n (by omega))
    (by simp [Machine.filled, Machine.tick]; omega)
    (by simp [Machine.filled, Machine.tick]; exact hcn)
  rw [timed_return P _ F Max T _ fuel hn _ _ ha]
  have hb : F = b n := by simp only [Nat.add_sub_cancel] at hlast; exact hlast.symm
  rw [← filled_succ buf b (budget P T) (2 * (n + 1)) n, hb]
  rfl

/-- The same run of `readStringNoTimeOut`. -/
theorem noTimeOut_success (P : Platform) (F : Byte) (Max : Nat) (buf b : Nat → Byte)
    (k : Nat) (hk : 1 ≤ k) (hkM : k ≤ Max) (hMax : Max < 4294967296)
    (hc : ∀ i, i < k → P.comm i = CommResult.byte (b i))
    (hfirst : ∀ i, i + 1 < k → b i ≠ F) (hlast : b (k - 1) = F) (fuel : Nat) :
    readStringNoTimeOut (k + fuel) P buf F Max
      = (some ⟨Exit.terminator, wrapS32 (k : Int)⟩,
          (Machine.filled buf b (fun _ => 0) 0 k).store k 0) := by
  obtain ⟨n, rfl⟩ : ∃ n, k = n + 1 := ⟨k - 1, by omega⟩
  have hrun := noTimeOut_run P F Max buf b hMax n (by omega)
    (fun i hi => ⟨hc i (by omega), hfirst i (by omega)⟩) (1 + fuel)
  have hfuel : n + 1 + fuel = n + (1 + fuel) := by omega
  unfold readStringNoTimeOut
  rw [hfuel, hrun, Nat.add_comm 1 fuel]
  have hn : (Machine.filled buf b (fun _ => 0) 0 n).nbBytes < Max := by
    simp [Machine.filled]; omega
  have hcn : P.comm n = CommResult.byte F := by
    have := hc n (by omega)
    rw [this]
    simp only [Nat.add_sub_cancel] at hlast
    rw [hlast]
  rw [noTimeOut_final P F Max _ fuel hn hMax (by rw [filled_calls_length]; exact hcn)]
  have hb : F = b n := by simp only [Nat.add_sub_cancel] at hlast; exact hlast.symm
  rw [← filled_succ buf b (fun _ => 0) 0 n, hb]
  rfl

/-- Content of the buffer after the marker is stored behind `k` bytes. -/
theorem filled_store_content (buf b : Nat → Byte) (t : Nat → Nat) (tk k : Nat) :
    (∀ i, i < k → ((Machine.filled buf b t tk k).store k 0).receivedString i = b i)
    ∧ ((Machine.filled buf b t tk k).store k 0).receivedString k = 0 := by
  constructor
  · intro i hi
    have hne : i ≠ k := by omega
    simp [Machine.filled, Machine.store, Function.update_noteq hne, hi]
  · simp [Machine.store]

/-! ## `readString`: iterations that neither read nor time out -/

/-- While the computed `timeOutParam` is not positive and the deadline check does not fire,
the loop goes round without calling `readChar`. -/
theorem timed_spin (P : Platform) (prev : timeval) (F : Byte) (Max T : Nat)
    (hskip : ∀ i, ¬ timeOutParam T (elapsedTime_ms prev (P.gettimeofday i)) > 0)
    (hchk : ∀ i, ¬ elapsedTime_ms prev (P.gettimeofday i) > T) (fuel : Nat) :
    ∀ m : Machine, m.nbBytes < Max →
      readString_loop P prev F Max T fuel m = (none, m.tick (2 * fuel)) := by
  induction fuel with
  | zero => intro m _; rfl
  | succ n ih =>
    intro m hm
    rw [timed_check P prev F Max T m n hm (m.tick 1) (attempt_skip P F _ _ (hskip _)),
      if_neg (hchk _), ih ((m.tick 1).tick 1) hm]
    simp only [Machine.tick, Prod.mk.injEq, Machine.mk.injEq, true_and, and_true]
    omega

theorem reading_frozen (P : Platform) (h : P.gettimeofday = frozen) (i : Nat) :
    reading P i = 0 := by
  unfold reading
  rw [h]
  show elapsedTime_ms ⟨0, 0⟩ ⟨0, 0⟩ = 0
  decide

/-! ## C1: delimited read success -/

/-- C1 (as amended): for `readString` with `timeOut_ms > 0`, every final character `t`, every
`maxNbBytes` and every byte sequence `b 0 .. b (k-1)` with `1 ≤ k ≤ maxNbBytes` and
`k < 2^31` in which `b (k-1) = t` is the first occurrence of `t`: if call `i` of `readChar`
delivers `b i` and every elapsed-time reading `e` taken satisfies `e < timeOut_ms` and
`timeOut_ms - e < 2^31`, then `readString` returns `k` through the final-character exit, the
destination holds `b 0 .. b (k-1)` at positions `0 .. k-1` and a zero at position `k`. -/
theorem readString_delimited_success (P : Platform) (buf b : Nat → Byte) (t : Byte)
    (maxNbBytes timeOut_ms k fuel : Nat)
    (hT : 0 < timeOut_ms) (hk : 1 ≤ k) (hkmax : k ≤ maxNbBytes)
    (hmax : maxNbBytes < 4294967296) (hk31 : k < 2147483648)
    (hlast : b (k - 1) = t) (hfirst : ∀ i, i + 1 < k → b i ≠ t)
    (hdev : ∀ i, i < k → P.comm i = CommResult.byte (b i))
    (hclock : ∀ i, i < 2 * k →
      reading P i < timeOut_ms ∧ timeOut_ms < reading P i + 2147483648) :
    ∃ m, readString (k + fuel) P buf t maxNbBytes timeOut_ms
          = (some ⟨Exit.terminator, (k : Int)⟩, m)
      ∧ (∀ i, i < k → m.receivedString i = b i) ∧ m.receivedString k = 0 := by
  refine ⟨(Machine.filled buf b (budget P timeOut_ms) (2 * k) k).store k 0, ?_,
    (filled_store_content buf b _ _ k).1, (filled_store_content buf b _ _ k).2⟩
  have h := timed_success P t maxNbBytes timeOut_ms buf b k hk hkmax hmax hT hdev hfirst hlast
    (fun i hi => by
      have hw := hclock (2 * i) (by omega)
      rw [timeOutParam_window _ _ hw.1 hw.2]
      omega)
    (fun i hi => by
      have hw := hclock (2 * i + 1) (by omega)
      omega) fuel
  rw [h, wrapS32_of_range _ (by omega) (by omega)]

/-- C1, witness: the stream `"OK\r"` with final character `'\r'`, `maxNbBytes = 10` and a
timeout of 1000 ms gives the return value 3 and the buffer `"OK\r\0"`. -/
theorem readString_delimited_success_witness :
    ∃ m, readString (3 + 0) P_okcr blank 13 10 1000 = (some ⟨Exit.terminator, (3 : Nat)⟩, m)
      ∧ (∀ i, i < 3 → m.receivedString i = okcr i) ∧ m.receivedString 3 = 0 :=
  readString_delimited_success P_okcr blank okcr 13 10 1000 3 0 (by decide) (by decide)
    (by decide) (by decide) (by decide) (by decide)
    (fun i hi => by
      have h2 : i < 2 := by omega
      interval_cases i <;> decide)
    (fun i hi => by interval_cases i <;> rfl)
    (fun i _ => by rw [reading_frozen P_okcr rfl i]; decide)

/-- C1, counterexample to the claim as stated. First input: `2^31 - 1` bytes `'x'` followed by
`'\r'`, `maxNbBytes = 2^31`, a timeout of 1000 ms and all elapsed-time readings 0: the value
returned is `-2147483648`, not the count `2147483648`. Second input: the stream `"OK\r"`,
`maxNbBytes = 10`, a timeout of `2^31` ms and all elapsed-time readings 0: no iteration calls
`readChar` or reaches a `return` statement. -/
theorem readString_delimited_success_counterexample :
    ((∀ i, reading P_long i < 1000)
      ∧ (readString 2147483648 P_long blank 13 2147483648 1000).1
          = some ⟨Exit.terminator, -2147483648⟩)
    ∧ ((∀ i, reading P_okcr i < 2147483648)
      ∧ ∀ fuel, (readString fuel P_okcr blank 13 10 2147483648).1 = none
          ∧ (readString fuel P_okcr blank 13 10 2147483648).2.calls = []) := by
  refine ⟨⟨fun i => by rw [reading_frozen P_long rfl i]; decide, ?_⟩,
    ⟨fun i => by rw [reading_frozen P_okcr rfl i]; decide, fun fuel => ?_⟩⟩
  · have h := timed_success P_long 13 2147483648 1000 blank longLine 2147483648 (by decide)
      (by decide) (by decide) (by decide) (fun i _ => rfl)
      (fun i hi => by
        have hne : ¬ i + 1 = 2147483648 := by omega
        simp [longLine, hne])
      (by decide)
      (fun i _ => by rw [reading_frozen P_long rfl]; decide)
      (fun i _ => by rw [reading_frozen P_long rfl]; decide) 0
    rw [Nat.add_zero] at h
    rw [h]
    decide
  · have hspin := timed_spin P_okcr (P_okcr.gettimeofday 0) 13 10 2147483648
      (fun i => by
        show ¬ timeOutParam 2147483648 (elapsedTime_ms ⟨0, 0⟩ ⟨0, 0⟩) > 0
        decide)
      (fun i => by
        show ¬ elapsedTime_ms ⟨0, 0⟩ ⟨0, 0⟩ > 2147483648
        decide) fuel ((Machine.start blank).tick 1) (by decide)
    have hrs : readString fuel P_okcr blank 13 10 2147483648
        = readString_loop P_okcr (P_okcr.gettimeofday 0) 13 10 2147483648 fuel
            ((Machine.start blank).tick 1) := by
      unfold readString
      rw [if_neg (by decide)]
      rfl
    rw [hrs, hspin]
    exact ⟨rfl, rfl⟩

/-! ## The bytes received and the content of the buffer -/

theorem received_succ (P : Platform) (c : Nat) :
    received P (c + 1) = received P c ++ ((P.comm c).delivered).toList := by
  unfold received
  rw [List.range_succ, List.filterMap_append]
  cases h : (P.comm c).delivered <;> simp [List.filterMap_cons, h]

theorem received_length_mono (P : Platform) (c d : Nat) :
    (received P c).length ≤ (received P (c + d)).length := by
  induction d with
  | zero => exact Nat.le_refl _
  | succ n ih =>
    rw [← Nat.add_assoc, received_succ, List.length_append]
    omega

theorem delivered_byte (b : Byte) : (CommResult.byte b).delivered = some b := by
  simp [CommResult.byte, CommResult.delivered]

theorem delivered_silence : CommResult.silence.delivered = none := by
  simp [CommResult.silence, CommResult.delivered]

theorem contents_length (m : Machine) (n : Nat) : (m.contents n).length = n := by
  simp [Machine.contents]

theorem contents_succ (m : Machine) (n : Nat) :
    m.contents (n + 1) = m.contents n ++ [m.receivedString n] := by
  simp [Machine.contents, List.range_succ]

theorem contents_congr (m m1 : Machine) (n : Nat)
    (h : ∀ i, i < n → m1.receivedString i = m.receivedString i) :
    m1.contents n = m.contents n := by
  unfold Machine.contents
  apply List.map_congr_left
  intro i hi
  exact h i (List.mem_range.mp hi)

theorem Inv_start (P : Platform) (buf : Nat → Byte) (k : Nat) :
    Inv P ((Machine.start buf).tick k) := by
  simp [Inv, Machine.start, Machine.tick, Machine.contents, received]

theorem Inv_tick (P : Platform) (m : Machine) (k : Nat) (h : Inv P m) : Inv P (m.tick k) := h

theorem Inv_nbBytes (P : Platform) (m : Machine) (h : Inv P m) :
    m.nbBytes = (received P m.calls.length).length := by
  have := congrArg List.length h
  rw [contents_length] at this
  exact this

theorem Inv_push (P : Platform) (m : Machine) (t : Nat) (b : Byte) (h : Inv P m)
    (hc : P.comm m.calls.length = CommResult.byte b) : Inv P (m.push t b) := by
  unfold Inv at *
  have h1 : (m.push t b).contents m.nbBytes = m.contents m.nbBytes := by
    apply contents_congr
    intro i hi
    have hne : i ≠ m.nbBytes := by omega
    simp [Machine.push, Function.update_noteq hne]
  have h2 : (m.push t b).calls.length = m.calls.length + 1 := by simp [Machine.push]
  have h3 : (m.push t b).nbBytes = m.nbBytes + 1 := rfl
  have h4 : (m.push t b).receivedString m.nbBytes = b := by simp [Machine.push]
  rw [h2, h3, contents_succ, h1, h4, received_succ, hc, delivered_byte, h]
  rfl

theorem Inv_called (P : Platform) (m : Machine) (t : Nat) (h : Inv P m)
    (hc : (P.comm m.calls.length).delivered = none) : Inv P (m.called t) := by
  unfold Inv at *
  have h2 : (m.called t).calls.length = m.calls.length + 1 := by simp [Machine.called]
  rw [h2, received_succ, hc]
  simpa [Machine.called, Machine.contents] using h

/-- Storing the marker behind the bytes received. -/
theorem Inv_marker (P : Platform) (m : Machine) (h : Inv P m) :
    (m.store m.nbBytes 0).contents (m.nbBytes + 1) = received P m.calls.length ++ [0] := by
  have h1 : (m.store m.nbBytes 0).contents m.nbBytes = m.contents m.nbBytes := by
    apply contents_congr
    intro i hi
    have hne : i ≠ m.nbBytes := by omega
    simp [Machine.store, Function.update_noteq hne]
  rw [contents_succ, h1, h]
  simp [Machine.store]

/-! ## The outcomes of one read attempt of `readString` -/

/-- The five ways through the statement `if (timeOutParam>0) ...`. -/
theorem attempt_cases (P : Platform) (F : Byte) (tp : Int) (m : Machine)
    (hnb : m.nbBytes + 1 < 4294967296) :
    (¬ tp > 0 ∧ readString_attempt P F tp m = (none, m))
    ∨ (tp > 0 ∧ ∃ b, P.comm m.calls.length = CommResult.byte b ∧ b ≠ F
        ∧ readString_attempt P F tp m = (none, m.push (wrapU32 tp) b))
    ∨ (tp > 0 ∧ P.comm m.calls.length = CommResult.byte F
        ∧ readString_attempt P F tp m
          = (some ⟨Exit.terminator, wrapS32 ((m.nbBytes + 1 : Nat) : Int)⟩,
              (m.push (wrapU32 tp) F).store (m.nbBytes + 1) 0))
    ∨ (tp > 0 ∧ P.comm m.calls.length = CommResult.silence
        ∧ readString_attempt P F tp m = (none, m.called (wrapU32 tp)))
    ∨ (tp > 0 ∧ (P.comm m.calls.length).SetCommTimeouts = false
        ∧ readString_attempt P F tp m = (some ⟨Exit.error, -1⟩, m.called (wrapU32 tp)))
    ∨ (tp > 0 ∧ (P.comm m.calls.length).SetCommTimeouts = true
        ∧ (P.comm m.calls.length).ReadFile = false
        ∧ readString_attempt P F tp m = (some ⟨Exit.error, -2⟩, m.called (wrapU32 tp))) := by
  by_cases htp : tp > 0
  · right
    rcases readChar_cases P m m.nbBytes (wrapU32 tp) with ⟨b, hb, _⟩ | ⟨hs, hr⟩ | ⟨hs, hr⟩
        | ⟨hs, hs2, hr⟩
    · by_cases hbF : b = F
      · subst hbF
        exact Or.inr (Or.inl ⟨htp, hb, attempt_final P b tp m htp hnb hb⟩)
      · exact Or.inl ⟨htp, b, hb, hbF, attempt_byte P F tp m b htp hnb hb hbF⟩
    · refine Or.inr (Or.inr (Or.inl ⟨htp, hs, ?_⟩))
      rw [attempt_nothing P F tp m htp 0 hr (Or.inl rfl)]
      rfl
    · refine Or.inr (Or.inr (Or.inr (Or.inl ⟨htp, hs, ?_⟩)))
      rw [attempt_nothing P F tp m htp (-1) hr (Or.inr (Or.inl rfl))]
      rfl
    · refine Or.inr (Or.inr (Or.inr (Or.inr ⟨htp, hs, hs2, ?_⟩)))
      rw [attempt_nothing P F tp m htp (-2) hr (Or.inr (Or.inr rfl))]
      rfl
  · exact Or.inl ⟨htp, attempt_skip P F tp m htp⟩

/-- A read attempt that meets neither an error nor the final character falls through to the
deadline check, keeps the invariant and makes at most one call of `readChar`. -/
theorem attempt_quiet (P : Platform) (F : Byte) (tp : Int) (m : Machine)
    (hnb : m.nbBytes + 1 < 4294967296) (hinv : Inv P m)
    (hq : (P.comm m.calls.length).SetCommTimeouts = true
      ∧ (P.comm m.calls.length).ReadFile = true ∧ (P.comm m.calls.length).data ≠ some F) :
    ∃ m1, readString_attempt P F tp m = (none, m1) ∧ Inv P m1 ∧ m1.ticks = m.ticks
      ∧ m1.calls.length ≤ m.calls.length + 1 := by
  rcases attempt_cases P F tp m hnb with ⟨_, h⟩ | ⟨_, b, hb, _, h⟩ | ⟨_, hb, _⟩ | ⟨_, hs, h⟩
      | ⟨_, hs, _⟩ | ⟨_, _, hs, _⟩
  · exact ⟨m, h, hinv, rfl, by omega⟩
  · exact ⟨_, h, Inv_push P m _ b hinv hb, rfl, by simp [Machine.push]⟩
  · exfalso
    rw [hb] at hq
    exact hq.2.2 rfl
  · exact ⟨_, h, Inv_called P m _ hinv (by rw [hs]; exact delivered_silence), rfl,
      by simp [Machine.called]⟩
  · rw [hs] at hq
    exact absurd hq.1 (by decide)
  · rw [hs] at hq
    exact absurd hq.2.1 (by decide)

/-! ## C2: timeout in the middle of a read -/

theorem received_length_le (P : Platform) (c d : Nat) (h : c ≤ d) :
    (received P c).length ≤ (received P d).length := by
  obtain ⟨e, rfl⟩ : ∃ e, d = c + e := ⟨d - c, by omega⟩
  exact received_length_mono P c e

/-- Iterations `j0 .. j0 + N` meet neither an error nor the final character, and the deadline
check fires for the first time in iteration `j0 + N`. -/
theorem timed_quiet_run (P : Platform) (F : Byte) (Max T : Nat) (hMax : Max < 4294967296)
    (fuel : Nat) :
    ∀ (N j0 : Nat) (m : Machine), m.ticks = 2 * j0 + 1 → Inv P m → m.calls.length ≤ j0 →
      (∀ c, c ≤ j0 + N → (P.comm c).SetCommTimeouts = true ∧ (P.comm c).ReadFile = true
        ∧ (P.comm c).data ≠ some F) →
      (∀ j, j0 ≤ j → j < j0 + N → reading P (2 * j + 1) ≤ T) →
      T < reading P (2 * (j0 + N) + 1) →
      (received P (j0 + N + 1)).length < Max →
      ∃ m1, readString_loop P (P.gettimeofday 0) F Max T (N + 1 + fuel) m
            = (some ⟨Exit.deadline, 0⟩, m1)
        ∧ m1.nbBytes < Max ∧ m1.nbBytes = (received P m1.calls.length).length
        ∧ m1.contents (m1.nbBytes + 1) = received P m1.calls.length ++ [0]
        ∧ m1.calls.length ≤ j0 + N + 1 := by
  intro N
  induction N with
  | zero =>
    intro j0 m hticks hinv hcalls hq _ hfire hroom
    have hnb : m.nbBytes < Max := by
      rw [Inv_nbBytes P m hinv]
      have := received_length_le P m.calls.length (j0 + 0 + 1) (by omega)
      omega
    obtain ⟨m1, ha, hinv1, ht1, hc1⟩ := attempt_quiet P F
      (timeOutParam T (elapsedTime_ms (P.gettimeofday 0) (P.gettimeofday m.ticks)))
      (m.tick 1) (by show m.nbBytes + 1 < 4294967296; omega) (Inv_tick P m 1 hinv)
      (hq m.calls.length (by omega))
    have hfuel : 0 + 1 + fuel = fuel + 1 := by omega
    have ht1b : m1.ticks = 2 * (j0 + 0) + 1 + 1 := by
      rw [ht1]; show m.ticks + 1 = _; omega
    have hcl : m1.calls.length ≤ j0 + 1 := by
      have : (m.tick 1).calls.length = m.calls.length := rfl
      omega
    rw [hfuel, timed_check P _ F Max T m fuel hnb m1 ha, ht1b,
      if_pos (by unfold reading at hfire; exact hfire)]
    refine ⟨_, rfl, ?_, ?_, ?_, ?_⟩
    · show m1.nbBytes < Max
      rw [Inv_nbBytes P m1 hinv1]
      have := received_length_le P m1.calls.length (j0 + 0 + 1) (by omega)
      omega
    · exact Inv_nbBytes P m1 hinv1
    · exact Inv_marker P (m1.tick 1) (Inv_tick P m1 1 hinv1)
    · show m1.calls.length ≤ j0 + 0 + 1
      omega
  | succ n ih =>
    intro j0 m hticks hinv hcalls hq hbefore hfire hroom
    have hnb : m.nbBytes < Max := by
      rw [Inv_nbBytes P m hinv]
      have := received_length_le P m.calls.length (j0 + (n + 1) + 1) (by omega)
      omega
    obtain ⟨m1, ha, hinv1, ht1, hc1⟩ := attempt_quiet P F
      (timeOutParam T (elapsedTime_ms (P.gettimeofday 0) (P.gettimeofday m.ticks)))
      (m.tick 1) (by show m.nbBytes + 1 < 4294967296; omega) (Inv_tick P m 1 hinv)
      (hq m.calls.length (by omega))
    have hfuel : n + 1 + 1 + fuel = (n + 1 + fuel) + 1 := by omega
    have ht1b : m1.ticks = 2 * j0 + 1 + 1 := by
      rw [ht1]; show m.ticks + 1 = _; omega
    have hcl : m1.calls.length ≤ j0 + 1 := by
      have : (m.tick 1).calls.length = m.calls.length := rfl
      omega
    have hno : ¬ elapsedTime_ms (P.gettimeofday 0) (P.gettimeofday (2 * j0 + 1 + 1)) > T := by
      have := hbefore j0 (by omega) (by omega)
      unfold reading at this
      omega
    rw [hfuel, timed_check P _ F Max T m (n + 1 + fuel) hnb m1 ha, ht1b, if_neg hno]
    have hshift : j0 + 1 + n = j0 + (n + 1) := by omega
    obtain ⟨m2, h2, h3, h4, h5, h6⟩ := ih (j0 + 1) (m1.tick 1)
      (by show m1.ticks + 1 = _; omega) (Inv_tick P m1 1 hinv1)
      (by show m1.calls.length ≤ j0 + 1; omega)
      (fun c hc => hq c (by omega))
      (fun j hj1 hj2 => hbefore j (by omega) (by omega))
      (by rw [hshift]; exact hfire) (by rw [hshift]; exact hroom)
    exact ⟨m2, h2, h3, h4, h5, by omega⟩

/-- C2: for `readString` with `timeOut_ms > 0`, when the calls of `readChar` made during
iterations `0 .. N` (at most `N + 1` calls) meet no error and deliver no final character, the
deadline checks of iterations `0 .. N-1` read at most `timeOut_ms`, the one of iteration `N`
reads more than `timeOut_ms`, and the source delivers fewer than `maxNbBytes` bytes on those
calls, then `readString` returns 0 through the deadline exit, the number `n` of bytes received
is below `maxNbBytes`, the destination holds them at positions `0 .. n-1` in arrival order and
a zero at position `n`. Any interleaving of stored bytes, calls that time out and iterations
that skip the call is covered. -/
theorem readString_timeout_mid_read (P : Platform) (buf : Nat → Byte) (t : Byte)
    (maxNbBytes timeOut_ms N fuel : Nat) (hT : 0 < timeOut_ms)
    (hmax : maxNbBytes < 4294967296)
    (hdev : ∀ c, c ≤ N → (P.comm c).SetCommTimeouts = true ∧ (P.comm c).ReadFile = true
      ∧ (P.comm c).data ≠ some t)
    (hbefore : ∀ j, j < N → reading P (2 * j + 1) ≤ timeOut_ms)
    (hfire : timeOut_ms < reading P (2 * N + 1))
    (hroom : (received P (N + 1)).length < maxNbBytes) :
    ∃ m, readString (N + 1 + fuel) P buf t maxNbBytes timeOut_ms
          = (some ⟨Exit.deadline, 0⟩, m)
      ∧ m.nbBytes < maxNbBytes
      ∧ m.nbBytes = (received P m.calls.length).length
      ∧ m.contents (m.nbBytes + 1) = received P m.calls.length ++ [0] := by
  have hT0 : ¬ timeOut_ms = 0 := by omega
  obtain ⟨m, h1, h2, h3, h4, _⟩ := timed_quiet_run P t maxNbBytes timeOut_ms hmax fuel N 0
    ((Machine.start buf).tick 1) rfl (Inv_start P buf 1) (by simp [Machine.start, Machine.tick])
    (fun c hc => hdev c (by omega)) (fun j _ hj => hbefore j (by omega))
    (by rw [Nat.zero_add]; exact hfire) (by rw [Nat.zero_add]; exact hroom)
  refine ⟨m, ?_, h2, h3, h4⟩
  unfold readString
  rw [if_neg hT0]
  exact h1

/-- C2, witness: a source that yields `'A'` and then only times out, final character `'\n'`,
`maxNbBytes = 10`, `timeOut_ms = 50`: the return value is 0 and the buffer holds `"A\0"`. -/
theorem readString_timeout_mid_read_witness :
    (∃ m, readString (1 + 1 + 0) P_A blank 10 10 50 = (some ⟨Exit.deadline, 0⟩, m)
      ∧ m.nbBytes < 10
      ∧ m.nbBytes = (received P_A m.calls.length).length
      ∧ m.contents (m.nbBytes + 1) = received P_A m.calls.length ++ [0])
    ∧ (readString 2 P_A blank 10 10 50).2.contents 2 = [65, 0] :=
  ⟨readString_timeout_mid_read P_A blank 10 10 50 1 0 (by decide) (by decide)
    (fun c hc => by interval_cases c <;> decide)
    (fun j hj => by interval_cases j; decide) (by decide) (by decide), by decide⟩

/-! ## C3: buffer full -/

/-- Buffer full, `readStringNoTimeOut`: when the first `maxNbBytes` calls of `readChar` deliver
bytes other than the final character, the call returns -3 after exactly `maxNbBytes` calls,
the bytes are stored in arrival order and position `maxNbBytes` is not stored to. -/
theorem readStringNoTimeOut_buffer_full (P : Platform) (buf b : Nat → Byte) (t : Byte)
    (maxNbBytes fuel : Nat) (hmax : maxNbBytes < 4294967296)
    (hdev : ∀ i, i < maxNbBytes → P.comm i = CommResult.byte (b i) ∧ b i ≠ t) :
    ∃ m, readStringNoTimeOut (maxNbBytes + (fuel + 1)) P buf t maxNbBytes
          = (some ⟨Exit.full, -3⟩, m)
      ∧ m.calls.length = maxNbBytes
      ∧ (∀ i, i < maxNbBytes → m.receivedString i = b i)
      ∧ maxNbBytes ∉ m.stores ∧ m.receivedString maxNbBytes = buf maxNbBytes := by
  refine ⟨Machine.filled buf b (fun _ => 0) 0 maxNbBytes, ?_, filled_calls_length _ _ _ _ _,
    ?_, ?_, ?_⟩
  · unfold readStringNoTimeOut
    rw [noTimeOut_run P t maxNbBytes buf b hmax maxNbBytes (Nat.le_refl _) hdev (fuel + 1)]
    exact noTimeOut_full P t maxNbBytes _ fuel (by simp [Machine.filled])
  · intro i hi
    simp [Machine.filled, hi]
  · simp [Machine.filled]
  · simp [Machine.filled]

/-- Buffer full, `readString` with a timeout, for elapsed-time readings `e` with
`0 < timeOut_ms - e < 2^31`: same outcome as `readStringNoTimeOut`. -/
theorem readString_buffer_full (P : Platform) (buf b : Nat → Byte) (t : Byte)
    (maxNbBytes timeOut_ms fuel : Nat) (hT : 0 < timeOut_ms) (hmax : maxNbBytes < 4294967296)
    (hdev : ∀ i, i < maxNbBytes → P.comm i = CommResult.byte (b i) ∧ b i ≠ t)
    (hclock : ∀ i, i < 2 * maxNbBytes →
      reading P i < timeOut_ms ∧ timeOut_ms < reading P i + 2147483648) :
    ∃ m, readString (maxNbBytes + (fuel + 1)) P buf t maxNbBytes timeOut_ms
          = (some ⟨Exit.full, -3⟩, m)
      ∧ m.calls.length = maxNbBytes
      ∧ (∀ i, i < maxNbBytes → m.receivedString i = b i)
      ∧ maxNbBytes ∉ m.stores ∧ m.receivedString maxNbBytes = buf maxNbBytes := by
  refine ⟨Machine.filled buf b (budget P timeOut_ms) (2 * maxNbBytes + 1) maxNbBytes, ?_,
    filled_calls_length _ _ _ _ _, ?_, ?_, ?_⟩
  · have hT0 : ¬ timeOut_ms = 0 := by omega
    unfold readString
    rw [if_neg hT0]
    show readString_loop P (P.gettimeofday 0) t maxNbBytes timeOut_ms _
      ((Machine.start buf).tick 1) = _
    rw [timed_run P t maxNbBytes timeOut_ms buf b hmax maxNbBytes (Nat.le_refl _) hdev
      (fun i hi => by
        have hw := hclock (2 * i) (by omega)
        rw [timeOutParam_window _ _ hw.1 hw.2]
        omega)
      (fun i hi => by
        have hw := hclock (2 * i + 1) (by omega)
        omega) (fuel + 1)]
    exact timed_full P _ t maxNbBytes timeOut_ms _ fuel (by simp [Machine.filled])
  · intro i hi
    simp [Machine.filled, hi]
  · simp [Machine.filled]
  · simp [Machine.filled]

/-- An endless stream of `'x'`, final character `'\n'`, `maxNbBytes = 4`,
`timeOut_ms = 4294967295`, under a clock that stays at 0 ms: `timeOutParam` is `-1` in every
iteration, and for as long as the clock stays there `readString` goes round without calling
`readChar`. This is the delay the budget overflow causes; once the clock advances the reads
take place and -3 is returned. -/
theorem readString_frozen_clock :
    (∀ i, reading P_x i < 4294967295)
    ∧ timeOutParam 4294967295 0 = -1
    ∧ ∀ fuel, (readString fuel P_x blank 10 4 4294967295).1 = none
        ∧ (readString fuel P_x blank 10 4 4294967295).2.calls = []
        ∧ (readString fuel P_x blank 10 4 4294967295).2.stores = [] := by
  refine ⟨fun i => by rw [reading_frozen P_x rfl i]; decide, by decide, fun fuel => ?_⟩
  have hspin := timed_spin P_x (P_x.gettimeofday 0) 10 4 4294967295
    (fun i => by
      show ¬ timeOutParam 4294967295 (elapsedTime_ms ⟨0, 0⟩ ⟨0, 0⟩) > 0
      decide)
    (fun i => by
      show ¬ elapsedTime_ms ⟨0, 0⟩ ⟨0, 0⟩ > 4294967295
      decide) fuel ((Machine.start blank).tick 1) (by decide)
  have hrs : readString fuel P_x blank 10 4 4294967295
      = readString_loop P_x (P_x.gettimeofday 0) 10 4 4294967295 fuel
          ((Machine.start blank).tick 1) := by
    unfold readString
    rw [if_neg (by decide)]
    rfl
  rw [hrs, hspin]
  exact ⟨rfl, rfl, rfl⟩

theorem Filled_start (buf b : Nat → Byte) (k : Nat) :
    Filled buf b 0 ((Machine.start buf).tick k) := by
  refine ⟨rfl, rfl, rfl, fun i hi => ?_, fun x _ => rfl⟩
  omega

theorem Filled_tick (buf b : Nat → Byte) (n : Nat) (m : Machine) (k : Nat)
    (h : Filled buf b n m) : Filled buf b n (m.tick k) := h

theorem Filled_push (buf b : Nat → Byte) (n : Nat) (m : Machine) (t : Nat)
    (h : Filled buf b n m) : Filled buf b (n + 1) (m.push t (b n)) := by
  obtain ⟨h1, h2, h3, h4, h5⟩ := h
  refine ⟨?_, ?_, ?_, ?_, ?_⟩
  · show m.nbBytes + 1 = n + 1
    omega
  · show (t :: m.calls).length = n + 1
    rw [List.length_cons, h2]
  · show m.nbBytes :: m.stores = (List.range (n + 1)).reverse
    rw [List.range_succ, List.reverse_append, h1, h3]
    rfl
  · intro i hi
    show Function.update m.receivedString m.nbBytes (b n) i = b i
    by_cases hin : i = n
    · rw [hin, h1, Function.update_same]
    · rw [Function.update_noteq (by omega)]
      exact h4 i (by omega)
  · intro x hx
    show Function.update m.receivedString m.nbBytes (b n) x = buf x
    rw [Function.update_noteq (by omega)]
    exact h5 x (by omega)

theorem attempts_succ_pos (P : Platform) (T k : Nat)
    (h : 0 < timeOutParam T (reading P (2 * k))) :
    attempts P T (k + 1) = attempts P T k + 1 := by
  rw [attempts, if_pos h]

theorem attempts_succ_neg (P : Platform) (T k : Nat)
    (h : ¬ 0 < timeOutParam T (reading P (2 * k))) :
    attempts P T (k + 1) = attempts P T k := by
  rw [attempts, if_neg h, Nat.add_zero]

/-- When every one of the first `K` iterations computes a positive `timeOutParam`, all of them
call `readChar`. -/
theorem attempts_all (P : Platform) (T K : Nat)
    (h : ∀ i, i < K → 0 < timeOutParam T (reading P (2 * i))) : attempts P T K = K := by
  induction K with
  | zero => rfl
  | succ n ih =>
    rw [attempts_succ_pos P T n (h n (by omega)), ih (fun i hi => h i (by omega))]

/-- The loop of `readString`, entered at iteration `j0` with the bytes of the calls made so far
stored: when the source delivers bytes other than the final character, no deadline check
fires in iterations `j0 .. j0 + d - 1`, and `Max` of the iterations `0 .. j0 + d - 1` call
`readChar`, the loop is left with -3 and exactly `Max` bytes stored. Iterations that skip the
call may come in between. -/
theorem timed_fill (P : Platform) (F : Byte) (Max T : Nat) (buf b : Nat → Byte)
    (hMax : Max < 4294967296)
    (hdev : ∀ i, i < Max → P.comm i = CommResult.byte (b i) ∧ b i ≠ F) :
    ∀ (d j0 : Nat) (m : Machine), m.ticks = 2 * j0 + 1 →
      Filled buf b (attempts P T j0) m → attempts P T j0 ≤ Max →
      Max ≤ attempts P T (j0 + d) →
      (∀ j, j0 ≤ j → j < j0 + d → reading P (2 * j + 1) ≤ T) →
      ∃ m1, (∀ fuel, readString_loop P (P.gettimeofday 0) F Max T (d + 1 + fuel) m
            = (some ⟨Exit.full, -3⟩, m1))
        ∧ Filled buf b Max m1 := by
  intro d
  induction d with
  | zero =>
    intro j0 m _ hfill hle hge _
    have heq : attempts P T j0 = Max := by
      rw [Nat.add_zero] at hge
      omega
    refine ⟨m, fun fuel => ?_, by rw [← heq]; exact hfill⟩
    have hf : 0 + 1 + fuel = fuel + 1 := by omega
    rw [hf]
    exact timed_full P _ F Max T m fuel (by rw [hfill.1]; omega)
  | succ n ih =>
    intro j0 m hticks hfill hle hge hbefore
    have hf : ∀ fuel, n + 1 + 1 + fuel = (n + 1 + fuel) + 1 := fun fuel => by omega
    by_cases heq : attempts P T j0 = Max
    · refine ⟨m, fun fuel => ?_, by rw [← heq]; exact hfill⟩
      rw [hf]
      exact timed_full P _ F Max T m _ (by rw [hfill.1]; omega)
    · have hn : m.nbBytes < Max := by rw [hfill.1]; omega
      have hshift : j0 + 1 + n = j0 + (n + 1) := by omega
      have hno : ∀ m0 : Machine, m0.ticks = m.ticks + 1 →
          ¬ elapsedTime_ms (P.gettimeofday 0) (P.gettimeofday m0.ticks) > T := by
        intro m0 h0
        have := hbefore j0 (by omega) (by omega)
        rw [h0, hticks]
        unfold reading at this
        omega
      have htop : timeOutParam T (elapsedTime_ms (P.gettimeofday 0) (P.gettimeofday m.ticks))
          = timeOutParam T (reading P (2 * j0)) := by
        rw [hticks]
        rfl
      by_cases htp : 0 < timeOutParam T (reading P (2 * j0))
      · have hc := hdev (attempts P T j0) (by omega)
        have ha := attempt_byte P F
          (timeOutParam T (elapsedTime_ms (P.gettimeofday 0) (P.gettimeofday m.ticks)))
          (m.tick 1) (b (attempts P T j0)) (by rw [htop]; exact htp)
          (by show m.nbBytes + 1 < 4294967296; omega)
          (by show P.comm m.calls.length = _; rw [hfill.2.1]; exact hc.1) hc.2
        have hs := attempts_succ_pos P T j0 htp
        obtain ⟨w, hw⟩ : ∃ w, w = wrapU32
            (timeOutParam T (elapsedTime_ms (P.gettimeofday 0) (P.gettimeofday m.ticks))) :=
          ⟨_, rfl⟩
        rw [← hw] at ha
        obtain ⟨m2, hrun, hfin⟩ := ih (j0 + 1) (((m.tick 1).push w (b (attempts P T j0))).tick 1)
          (by show m.ticks + 1 + 1 = _; omega)
          (by
            rw [hs]
            exact Filled_tick buf b _ _ 1
              (Filled_push buf b _ (m.tick 1) w (Filled_tick buf b _ m 1 hfill)))
          (by omega) (by rw [hshift]; exact hge)
          (fun j hj1 hj2 => hbefore j (by omega) (by omega))
        refine ⟨m2, fun fuel => ?_, hfin⟩
        rw [hf, timed_check P _ F Max T m _ hn _ ha, if_neg (hno _ rfl)]
        exact hrun fuel
      · have ha := attempt_skip P F
          (timeOutParam T (elapsedTime_ms (P.gettimeofday 0) (P.gettimeofday m.ticks)))
          (m.tick 1) (by rw [htop]; omega)
        have hs := attempts_succ_neg P T j0 htp
        obtain ⟨m2, hrun, hfin⟩ := ih (j0 + 1) ((m.tick 1).tick 1)
          (by show m.ticks + 1 + 1 = _; omega)
          (by
            rw [hs]
            exact Filled_tick buf b _ _ 1 (Filled_tick buf b _ m 1 hfill))
          (by omega) (by rw [hshift]; exact hge)
          (fun j hj1 hj2 => hbefore j (by omega) (by omega))
        refine ⟨m2, fun fuel => ?_, hfin⟩
        rw [hf, timed_check P _ F Max T m _ hn _ ha, if_neg (hno _ rfl)]
        exact hrun fuel

/-- C3: for `readStringNoTimeOut`, and for `readString` with `timeOut_ms > 0` while no
elapsed-time reading reaches `timeOut_ms`, for every `maxNbBytes` and every byte source whose
first `maxNbBytes` delivered bytes `b 0 .. b (maxNbBytes-1)` do not contain the final
character, the call returns -3 through the buffer-full exit after exactly `maxNbBytes` calls of
`readChar`, with those bytes stored in arrival order at positions `0 .. maxNbBytes-1` and
position `maxNbBytes` not stored to. For `readString` the bytes are consumed once
`maxNbBytes` iterations have called `readChar`: `K` is any number of iterations among which
`maxNbBytes` compute a positive `timeOutParam` (`K = maxNbBytes` when every iteration does,
as for `timeOut_ms < 2^31`); iterations that skip the call may come in between. -/
theorem read_buffer_full (P : Platform) (buf b : Nat → Byte) (t : Byte)
    (maxNbBytes fuel : Nat) (hmax : maxNbBytes < 4294967296)
    (hdev : ∀ i, i < maxNbBytes → P.comm i = CommResult.byte (b i) ∧ b i ≠ t) :
    (∃ m, readStringNoTimeOut (maxNbBytes + 1 + fuel) P buf t maxNbBytes
          = (some ⟨Exit.full, -3⟩, m)
      ∧ m.calls.length = maxNbBytes
      ∧ (∀ i, i < maxNbBytes → m.receivedString i = b i)
      ∧ maxNbBytes ∉ m.stores ∧ m.receivedString maxNbBytes = buf maxNbBytes)
    ∧ (∀ timeOut_ms K, 0 < timeOut_ms →
        (∀ i, i < 2 * K → reading P i < timeOut_ms) →
        maxNbBytes ≤ attempts P timeOut_ms K →
        ∃ m, readString (K + 1 + fuel) P buf t maxNbBytes timeOut_ms
              = (some ⟨Exit.full, -3⟩, m)
          ∧ m.calls.length = maxNbBytes
          ∧ (∀ i, i < maxNbBytes → m.receivedString i = b i)
          ∧ maxNbBytes ∉ m.stores ∧ m.receivedString maxNbBytes = buf maxNbBytes) := by
  constructor
  · have h := readStringNoTimeOut_buffer_full P buf b t maxNbBytes fuel hmax hdev
    have hf : maxNbBytes + 1 + fuel = maxNbBytes + (fuel + 1) := by omega
    rw [hf]
    exact h
  · intro T K hT hbelow hprog
    have hT0 : ¬ T = 0 := by omega
    obtain ⟨m, hrun, h1, h2, h3, h4, h5⟩ := timed_fill P t maxNbBytes T buf b hmax hdev K 0
      ((Machine.start buf).tick 1) rfl (Filled_start buf b 1) (Nat.zero_le _)
      (by rw [Nat.zero_add]; exact hprog)
      (fun j _ hj => Nat.le_of_lt (hbelow (2 * j + 1) (by omega)))
    refine ⟨m, ?_, h2, h4, ?_, h5 maxNbBytes (Nat.le_refl _)⟩
    · unfold readString
      rw [if_neg hT0]
      exact hrun fuel
    · rw [h3]
      simp

/-- C3, witness: an endless stream of `'x'`, final character `'\n'`, `maxNbBytes = 4`: -3 is
returned after exactly 4 bytes consumed, by `readStringNoTimeOut`, by `readString` with a
timeout of 1000 ms, and by `readString` with a timeout of 3000000000 ms under a clock that
reads 0 ms in the first iteration (whose read is skipped) and 1000000000 ms afterwards. -/
theorem read_buffer_full_witness :
    (∃ m, readStringNoTimeOut (4 + 1 + 0) P_x blank 10 4 = (some ⟨Exit.full, -3⟩, m)
      ∧ m.calls.length = 4
      ∧ (∀ i, i < 4 → m.receivedString i = (fun _ => (120 : Byte)) i)
      ∧ 4 ∉ m.stores ∧ m.receivedString 4 = blank 4)
    ∧ (∃ m, readString (4 + 1 + 0) P_x blank 10 4 1000 = (some ⟨Exit.full, -3⟩, m)
      ∧ m.calls.length = 4
      ∧ (∀ i, i < 4 → m.receivedString i = (fun _ => (120 : Byte)) i)
      ∧ 4 ∉ m.stores ∧ m.receivedString 4 = blank 4)
    ∧ (∃ m, readString (5 + 1 + 0) P_x_slow blank 10 4 3000000000 = (some ⟨Exit.full, -3⟩, m)
      ∧ m.calls.length = 4
      ∧ (∀ i, i < 4 → m.receivedString i = (fun _ => (120 : Byte)) i)
      ∧ 4 ∉ m.stores ∧ m.receivedString 4 = blank 4)
    ∧ (readString 6 P_x_slow blank 10 4 3000000000).2.calls
        = [2000000000, 2000000000, 2000000000, 2000000000] :=
  have h := read_buffer_full P_x blank (fun _ => 120) 10 4 0 (by decide)
    (fun _ _ => ⟨rfl, by show (120 : Byte) ≠ 10; decide⟩)
  have h2 := read_buffer_full P_x_slow blank (fun _ => 120) 10 4 0 (by decide)
    (fun _ _ => ⟨rfl, by show (120 : Byte) ≠ 10; decide⟩)
  ⟨h.1,
    h.2 1000 4 (by decide) (fun i _ => by rw [reading_frozen P_x rfl i]; decide) (by decide),
    h2.2 3000000000 5 (by decide) (fun i hi => by interval_cases i <;> decide) (by decide),
    by decide⟩

/-! ## C4: error propagation -/

theorem readChar_error (P : Platform) (m : Machine) (i T : Nat) (e : Int)
    (herr : ((P.comm m.calls.length).SetCommTimeouts = false ∧ e = -1)
      ∨ ((P.comm m.calls.length).SetCommTimeouts = true
        ∧ (P.comm m.calls.length).ReadFile = false ∧ e = -2)) :
    readChar P m i T = (e, m.called T) := by
  unfold readChar
  rcases herr with ⟨h1, rfl⟩ | ⟨h1, h2, rfl⟩
  · simp [h1, Machine.called]
  · simp [h1, h2, Machine.called]

/-- C4: for `readStringNoTimeOut` and for `readString` with a timeout, if the first `j` calls
of `readChar` (`j < maxNbBytes`) deliver bytes `b 0 .. b (j-1)` other than the final character
and call `j` fails with the error code `e` (-1 when `SetCommTimeouts` fails, -2 when
`ReadFile` fails), then the call returns exactly `e` through the error exit, `readChar` has
been called `j + 1` times, the destination holds `b 0 .. b (j-1)` at positions `0 .. j-1`,
the only stores made are those of the `j` bytes, and every cell from position `j` on is
unchanged. For `readString` with a timeout the calls of `readChar` take place when each of the
iterations `0 .. j` computes a positive `timeOutParam` and the deadline checks of iterations
`0 .. j-1` read at most `timeOut_ms`. -/
theorem read_error_propagation (P : Platform) (buf b : Nat → Byte) (t : Byte)
    (maxNbBytes j fuel : Nat) (e : Int) (hj : j < maxNbBytes) (hmax : maxNbBytes < 4294967296)
    (hdev : ∀ i, i < j → P.comm i = CommResult.byte (b i) ∧ b i ≠ t)
    (herr : ((P.comm j).SetCommTimeouts = false ∧ e = -1)
      ∨ ((P.comm j).SetCommTimeouts = true ∧ (P.comm j).ReadFile = false ∧ e = -2)) :
    (∃ m, readStringNoTimeOut (j + 1 + fuel) P buf t maxNbBytes = (some ⟨Exit.error, e⟩, m)
      ∧ m.calls.length = j + 1
      ∧ (∀ i, i < j → m.receivedString i = b i)
      ∧ m.stores = (List.range j).reverse
      ∧ (∀ x, j ≤ x → m.receivedString x = buf x))
    ∧ (∀ timeOut_ms, 0 < timeOut_ms →
        (∀ i, i ≤ j → 0 < timeOutParam timeOut_ms (reading P (2 * i))) →
        (∀ i, i < j → reading P (2 * i + 1) ≤ timeOut_ms) →
        ∃ m, readString (j + 1 + fuel) P buf t maxNbBytes timeOut_ms
              = (some ⟨Exit.error, e⟩, m)
          ∧ m.calls.length = j + 1
          ∧ (∀ i, i < j → m.receivedString i = b i)
          ∧ m.stores = (List.range j).reverse
          ∧ (∀ x, j ≤ x → m.receivedString x = buf x)) := by
  have hfuel : j + 1 + fuel = j + (fuel + 1) := by omega
  have he : e = -1 ∨ e = -2 := by
    rcases herr with ⟨_, h⟩ | ⟨_, _, h⟩
    · exact Or.inl h
    · exact Or.inr h
  have hne : ¬ e = 0 := by omega
  constructor
  · refine ⟨(Machine.filled buf b (fun _ => 0) 0 j).called 0, ?_, ?_, ?_, ?_, ?_⟩
    · unfold readStringNoTimeOut
      rw [hfuel, noTimeOut_run P t maxNbBytes buf b hmax j (by omega) hdev (fuel + 1),
        noTimeOut_nothing P t maxNbBytes _ fuel (by simp [Machine.filled]; omega) e
          (readChar_error P _ _ 0 e (by rw [filled_calls_length]; exact herr))
          (Or.inr he), if_neg hne]
    · simp [Machine.filled, Machine.called]
    · intro i hi
      simp [Machine.filled, Machine.called, hi]
    · simp [Machine.filled, Machine.called]
    · intro x hx
      have : ¬ x < j := by omega
      simp [Machine.filled, Machine.called, this]
  · intro T hT htop hchk
    have hT0 : ¬ T = 0 := by omega
    refine ⟨((Machine.filled buf b (budget P T) (2 * j + 1) j).tick 1).called (budget P T j),
      ?_, ?_, ?_, ?_, ?_⟩
    · unfold readString
      rw [if_neg hT0]
      show readString_loop P (P.gettimeofday 0) t maxNbBytes T _
        ((Machine.start buf).tick 1) = _
      rw [hfuel, timed_run P t maxNbBytes T buf b hmax j (by omega) hdev
        (fun i hi => htop i (by omega)) hchk (fuel + 1)]
      have ha := attempt_nothing P t (timeOutParam T (reading P (2 * j)))
        ((Machine.filled buf b (budget P T) (2 * j + 1) j).tick 1) (htop j (Nat.le_refl _)) e
        (readChar_error P _ _ _ e (by
          show _ ∨ _
          simp only [Machine.tick, Machine.filled, List.length_reverse, List.length_map,
            List.length_range]
          exact herr))
        (Or.inr he)
      rw [if_neg hne] at ha
      exact timed_return P _ t maxNbBytes T _ fuel (by simp [Machine.filled]; omega) _ _ ha
    · simp [Machine.filled, Machine.called, Machine.tick]
    · intro i hi
      simp [Machine.filled, Machine.called, Machine.tick, hi]
    · simp [Machine.filled, Machine.called, Machine.tick]
    · intro x hx
      have : ¬ x < j := by omega
      simp [Machine.filled, Machine.called, Machine.tick, this]

/-- C4, witness: a source that delivers `"OK"` and fails on the third byte (`ReadFile`
fails, error code -2), `maxNbBytes = 10`, with and without a timeout of 1000 ms. -/
theorem read_error_propagation_witness :
    (∃ m, readStringNoTimeOut (2 + 1 + 0) P_fail blank 13 10 = (some ⟨Exit.error, -2⟩, m)
      ∧ m.calls.length = 2 + 1
      ∧ (∀ i, i < 2 → m.receivedString i = okcr i)
      ∧ m.stores = (List.range 2).reverse
      ∧ (∀ x, 2 ≤ x → m.receivedString x = blank x))
    ∧ (∃ m, readString (2 + 1 + 0) P_fail blank 13 10 1000 = (some ⟨Exit.error, -2⟩, m)
          ∧ m.calls.length = 2 + 1
          ∧ (∀ i, i < 2 → m.receivedString i = okcr i)
          ∧ m.stores = (List.range 2).reverse
          ∧ (∀ x, 2 ≤ x → m.receivedString x = blank x)) :=
  have h := read_error_propagation P_fail blank okcr 13 10 2 0 (-2) (by decide) (by decide)
    (fun i hi => by interval_cases i <;> decide) (Or.inr (by decide))
  ⟨h.1, h.2 1000 (by decide)
    (fun i _ => by rw [reading_frozen P_fail rfl]; decide)
    (fun i _ => by rw [reading_frozen P_fail rfl]; decide)⟩

/-! ## The outcomes of one iteration of `readStringNoTimeOut` -/

theorem noTimeOut_cases (P : Platform) (F : Byte) (Max : Nat) (m : Machine) (fuel : Nat)
    (hn : m.nbBytes < Max) (hMax : Max < 4294967296) :
    (∃ b, b ≠ F ∧ readStringNoTimeOut_loop P F Max (fuel + 1) m
        = readStringNoTimeOut_loop P F Max fuel (m.push 0 b))
    ∨ (readStringNoTimeOut_loop P F Max (fuel + 1) m
        = (some ⟨Exit.terminator, wrapS32 ((m.nbBytes + 1 : Nat) : Int)⟩,
            (m.push 0 F).store (m.nbBytes + 1) 0))
    ∨ (readStringNoTimeOut_loop P F Max (fuel + 1) m
        = readStringNoTimeOut_loop P F Max fuel (m.called 0))
    ∨ (∃ e : Int, (e = -1 ∨ e = -2)
        ∧ readStringNoTimeOut_loop P F Max (fuel + 1) m = (some ⟨Exit.error, e⟩, m.called 0)) := by
  rcases readChar_cases P m m.nbBytes 0 with ⟨b, hb, _⟩ | ⟨_, hr⟩ | ⟨_, hr⟩ | ⟨_, _, hr⟩
  · by_cases hbF : b = F
    · subst hbF
      exact Or.inr (Or.inl (noTimeOut_final P b Max m fuel hn hMax hb))
    · exact Or.inl ⟨b, hbF, noTimeOut_byte P F Max m fuel b hn hMax hb hbF⟩
  · refine Or.inr (Or.inr (Or.inl ?_))
    rw [noTimeOut_nothing P F Max m fuel hn 0 hr (Or.inl rfl)]
    rfl
  · refine Or.inr (Or.inr (Or.inr ⟨-1, Or.inl rfl, ?_⟩))
    rw [noTimeOut_nothing P F Max m fuel hn (-1) hr (Or.inr (Or.inl rfl))]
    rfl
  · refine Or.inr (Or.inr (Or.inr ⟨-2, Or.inr rfl, ?_⟩))
    rw [noTimeOut_nothing P F Max m fuel hn (-2) hr (Or.inr (Or.inr rfl))]
    rfl

/-! ## C5: what the returned value tells -/

theorem Told_terminator (F : Byte) (m : Machine) (t : Nat) (h : m.nbBytes + 1 < 2147483648) :
    Told F ⟨Exit.terminator, wrapS32 ((m.nbBytes + 1 : Nat) : Int)⟩
      ((m.push t F).store (m.nbBytes + 1) 0) := by
  have hv : wrapS32 ((m.nbBytes + 1 : Nat) : Int) = ((m.nbBytes + 1 : Nat) : Int) :=
    wrapS32_of_range _ (by omega) (by omega)
  rw [hv]
  refine ⟨by simp, by simp; omega, by simp; omega, by simp; omega, fun _ => ?_⟩
  refine ⟨rfl, by simp [Machine.store, Machine.push], ?_, ?_⟩
  · have hne : m.nbBytes ≠ m.nbBytes + 1 := by omega
    simp [Machine.store, Machine.push, Function.update_noteq hne]
  · simp [Machine.store, Machine.push]

theorem Told_deadline (F : Byte) (m : Machine) : Told F ⟨Exit.deadline, 0⟩ m := by
  refine ⟨by simp, by simp, by simp, by simp, fun h => ?_⟩
  simp at h

theorem Told_full (F : Byte) (m : Machine) : Told F ⟨Exit.full, -3⟩ m := by
  refine ⟨by simp, by simp, by simp, by simp, fun h => ?_⟩
  simp at h

theorem Told_error (F : Byte) (m : Machine) (e : Int) (he : e = -1 ∨ e = -2) :
    Told F ⟨Exit.error, e⟩ m := by
  refine ⟨?_, ?_, ?_, ?_, fun h => ?_⟩
  · simp; omega
  · simp; omega
  · simp; omega
  · simp; exact he
  · simp at h

/-- Every value `readStringNoTimeOut` returns tells the exit taken, when `MaxNbBytes < 2^31`. -/
theorem noTimeOut_told (P : Platform) (F : Byte) (Max : Nat) (hMax : Max < 2147483648)
    (fuel : Nat) : ∀ (m : Machine) (r : Return) (m1 : Machine),
      readStringNoTimeOut_loop P F Max fuel m = (some r, m1) → Told F r m1 := by
  induction fuel with
  | zero =>
    intro m r m1 h
    simp [readStringNoTimeOut_loop] at h
  | succ n ih =>
    intro m r m1 h
    by_cases hn : m.nbBytes < Max
    · rcases noTimeOut_cases P F Max m n hn (by omega) with ⟨b, _, hb⟩ | hb | hb | ⟨e, he, hb⟩
      · rw [hb] at h
        exact ih _ r m1 h
      · rw [hb] at h
        obtain ⟨h1, rfl⟩ := Prod.mk.inj h
        cases Option.some.inj h1
        exact Told_terminator F m 0 (by omega)
      · rw [hb] at h
        exact ih _ r m1 h
      · rw [hb] at h
        obtain ⟨h1, rfl⟩ := Prod.mk.inj h
        cases Option.some.inj h1
        exact Told_error F _ e he
    · rw [noTimeOut_full P F Max m n hn] at h
      obtain ⟨h1, rfl⟩ := Prod.mk.inj h
      cases Option.some.inj h1
      exact Told_full F _

/-- An iteration of `readString` that falls through to the deadline check and is part of a
call that returns: either the deadline exit is taken or the next iteration is run. -/
theorem timed_check_some (P : Platform) (prev : timeval) (F : Byte) (Max T : Nat) (m : Machine)
    (fuel : Nat) (h : m.nbBytes < Max) (m1 : Machine)
    (ha : readString_attempt P F
      (timeOutParam T (elapsedTime_ms prev (P.gettimeofday m.ticks))) (m.tick 1)
        = (none, m1))
    (r : Return) (m2 : Machine)
    (hr : readString_loop P prev F Max T (fuel + 1) m = (some r, m2)) :
    (r = ⟨Exit.deadline, 0⟩ ∧ m2 = (m1.tick 1).store m1.nbBytes 0)
    ∨ readString_loop P prev F Max T fuel (m1.tick 1) = (some r, m2) := by
  rw [timed_check P prev F Max T m fuel h m1 ha] at hr
  by_cases hd : elapsedTime_ms prev (P.gettimeofday m1.ticks) > T
  · rw [if_pos hd] at hr
    obtain ⟨h1, h2⟩ := Prod.mk.inj hr
    exact Or.inl ⟨(Option.some.inj h1).symm, h2.symm⟩
  · rw [if_neg hd] at hr
    exact Or.inr hr

/-- Every value `readString` returns from its loop tells the exit taken, when
`maxNbBytes < 2^31`. -/
theorem timed_told (P : Platform) (prev : timeval) (F : Byte) (Max T : Nat)
    (hMax : Max < 2147483648) (fuel : Nat) : ∀ (m : Machine) (r : Return) (m1 : Machine),
      readString_loop P prev F Max T fuel m = (some r, m1) → Told F r m1 := by
  induction fuel with
  | zero =>
    intro m r m1 h
    simp [readString_loop] at h
  | succ n ih =>
    intro m r m1 h
    by_cases hn : m.nbBytes < Max
    · have fall : ∀ m0, readString_attempt P F
          (timeOutParam T (elapsedTime_ms prev (P.gettimeofday m.ticks))) (m.tick 1)
            = (none, m0) → Told F r m1 := by
        intro m0 ha
        rcases timed_check_some P prev F Max T m n hn m0 ha r m1 h with ⟨rfl, _⟩ | h2
        · exact Told_deadline F m1
        · exact ih _ r m1 h2
      rcases attempt_cases P F (timeOutParam T (elapsedTime_ms prev (P.gettimeofday m.ticks)))
        (m.tick 1) (by show m.nbBytes + 1 < 4294967296; omega) with
        ⟨_, ha⟩ | ⟨_, b, _, _, ha⟩ | ⟨_, _, ha⟩ | ⟨_, _, ha⟩ | ⟨_, _, ha⟩ | ⟨_, _, _, ha⟩
      · exact fall _ ha
      · exact fall _ ha
      · rw [timed_return P prev F Max T m n hn _ _ ha] at h
        obtain ⟨h1, rfl⟩ := Prod.mk.inj h
        cases Option.some.inj h1
        exact Told_terminator F (m.tick 1) _ (by show m.nbBytes + 1 < 2147483648; omega)
      · exact fall _ ha
      · rw [timed_return P prev F Max T m n hn _ _ ha] at h
        obtain ⟨h1, rfl⟩ := Prod.mk.inj h
        cases Option.some.inj h1
        exact Told_error F _ (-1) (Or.inl rfl)
      · rw [timed_return P prev F Max T m n hn _ _ ha] at h
        obtain ⟨h1, rfl⟩ := Prod.mk.inj h
        cases Option.some.inj h1
        exact Told_error F _ (-2) (Or.inr rfl)
    · rw [timed_full P prev F Max T m n hn] at h
      obtain ⟨h1, rfl⟩ := Prod.mk.inj h
      cases Option.some.inj h1
      exact Told_full F _

/-- C5 (as amended): for every final character, every `maxNbBytes < 2^31`, every `timeOut_ms`
and every byte source and clock, the value returned by `readString` identifies the exit
taken: it is greater than 0 exactly when the final character was received and stored (and
then it equals the number of bytes stored, final character included, the last of them being
the final character, followed by a zero), it is 0 exactly for the deadline exit, -3 exactly
for the buffer-full exit, and -1 or -2 exactly for the error exit. -/
theorem readString_outcomes_distinct (P : Platform) (buf : Nat → Byte) (t : Byte)
    (maxNbBytes timeOut_ms fuel : Nat) (r : Return) (m : Machine)
    (hmax : maxNbBytes < 2147483648)
    (hret : readString fuel P buf t maxNbBytes timeOut_ms = (some r, m)) :
    (r.value > 0 ↔ r.site = Exit.terminator)
    ∧ (r.value = 0 ↔ r.site = Exit.deadline)
    ∧ (r.value = -3 ↔ r.site = Exit.full)
    ∧ ((r.value = -1 ∨ r.value = -2) ↔ r.site = Exit.error)
    ∧ (r.site = Exit.terminator →
        r.value = (m.nbBytes : Int) ∧ 1 ≤ m.nbBytes ∧ m.receivedString (m.nbBytes - 1) = t
          ∧ m.receivedString m.nbBytes = 0) := by
  unfold readString at hret
  by_cases hT : timeOut_ms = 0
  · rw [if_pos hT] at hret
    exact noTimeOut_told P t maxNbBytes hmax fuel _ r m hret
  · rw [if_neg hT] at hret
    exact timed_told P _ t maxNbBytes timeOut_ms hmax fuel _ r m hret

/-- C5, witness: the run on `"OK\r"` that returns 3. -/
theorem readString_outcomes_distinct_witness :
    ((3 : Int) > 0 ↔ Exit.terminator = Exit.terminator)
    ∧ ((3 : Int) = 0 ↔ Exit.terminator = Exit.deadline)
    ∧ ((3 : Int) = -3 ↔ Exit.terminator = Exit.full)
    ∧ (((3 : Int) = -1 ∨ (3 : Int) = -2) ↔ Exit.terminator = Exit.error)
    ∧ (Exit.terminator = Exit.terminator →
        (3 : Int) = ((readString 3 P_okcr blank 13 10 1000).2.nbBytes : Int)
          ∧ 1 ≤ (readString 3 P_okcr blank 13 10 1000).2.nbBytes
          ∧ (readString 3 P_okcr blank 13 10 1000).2.receivedString
              ((readString 3 P_okcr blank 13 10 1000).2.nbBytes - 1) = 13
          ∧ (readString 3 P_okcr blank 13 10 1000).2.receivedString
              (readString 3 P_okcr blank 13 10 1000).2.nbBytes = 0) :=
  readString_outcomes_distinct P_okcr blank 13 10 1000 3 ⟨Exit.terminator, 3⟩
    (readString 3 P_okcr blank 13 10 1000).2 (by decide) (Prod.ext (by decide) rfl)

/-- C5, counterexample to the claim as stated: with `maxNbBytes = 4294967295`, no timeout and
a stream of `2^32 - 4` bytes `'x'` followed by the final character `'\r'`, the call leaves
through the final-character exit after storing 4294967293 bytes and returns -3, the value of
the buffer-full exit. -/
theorem readString_outcomes_distinct_counterexample :
    (readString 4294967293 P_huge blank 13 4294967295 0).1 = some ⟨Exit.terminator, -3⟩
    ∧ (readString 4294967293 P_huge blank 13 4294967295 0).2.nbBytes = 4294967293 := by
  have h := noTimeOut_success P_huge 13 4294967295 blank hugeLine 4294967293 (by decide)
    (by decide) (by decide) (fun i _ => rfl)
    (fun i hi => by
      have hne : ¬ i + 1 = 4294967293 := by omega
      simp [hugeLine, hne])
    (by decide) 0
  rw [Nat.add_zero] at h
  have hrs : readString 4294967293 P_huge blank 13 4294967295 0
      = readStringNoTimeOut 4294967293 P_huge blank 13 4294967295 := by
    unfold readString
    rw [if_pos rfl]
  rw [hrs, h]
  exact ⟨by decide, rfl⟩

/-! ## C6: write bound -/

theorem Safe_start (Max : Nat) (buf : Nat → Byte) (k : Nat) :
    Safe Max ((Machine.start buf).tick k) := by
  simp [Safe, Machine.start, Machine.tick]

theorem Safe_tick (Max : Nat) (m : Machine) (k : Nat) (h : Safe Max m) :
    Safe Max (m.tick k) := h

theorem Safe_called (Max : Nat) (m : Machine) (t : Nat) (h : Safe Max m) :
    Safe Max (m.called t) := h

theorem Safe_push (Max : Nat) (m : Machine) (t : Nat) (b : Byte) (h : Safe Max m)
    (hn : m.nbBytes < Max) : Safe Max (m.push t b) := by
  refine ⟨by show m.nbBytes + 1 ≤ Max; omega, fun i hi => ?_⟩
  rcases List.mem_cons.mp hi with rfl | hi
  · omega
  · exact h.2 i hi

theorem Safe_marker (Max : Nat) (m : Machine) (h : Safe Max m) :
    Safe Max (m.store m.nbBytes 0) := by
  refine ⟨h.1, fun i hi => ?_⟩
  rcases List.mem_cons.mp hi with rfl | hi
  · exact h.1
  · exact h.2 i hi

theorem Safe_final (Max : Nat) (m : Machine) (t : Nat) (F : Byte) (h : Safe Max m)
    (hn : m.nbBytes < Max) : Safe Max ((m.push t F).store (m.nbBytes + 1) 0) :=
  Safe_marker Max (m.push t F) (Safe_push Max m t F h hn)

/-- The bound holds after any number of iterations of `readStringNoTimeOut`. -/
theorem noTimeOut_safe (P : Platform) (F : Byte) (Max : Nat) (hMax : Max < 4294967296)
    (fuel : Nat) : ∀ m : Machine, Safe Max m →
      Safe Max (readStringNoTimeOut_loop P F Max fuel m).2 := by
  induction fuel with
  | zero => intro m h; exact h
  | succ n ih =>
    intro m h
    by_cases hn : m.nbBytes < Max
    · rcases noTimeOut_cases P F Max m n hn hMax with ⟨b, _, hb⟩ | hb | hb | ⟨e, _, hb⟩
      · rw [hb]; exact ih _ (Safe_push Max m 0 b h hn)
      · rw [hb]; exact Safe_final Max m 0 F h hn
      · rw [hb]; exact ih _ (Safe_called Max m 0 h)
      · rw [hb]; exact Safe_called Max m 0 h
    · rw [noTimeOut_full P F Max m n hn]; exact h

/-- The bound holds after any number of iterations of the loop of `readString`. -/
theorem timed_safe (P : Platform) (prev : timeval) (F : Byte) (Max T : Nat)
    (hMax : Max < 4294967296) (fuel : Nat) : ∀ m : Machine, Safe Max m →
      Safe Max (readString_loop P prev F Max T fuel m).2 := by
  induction fuel with
  | zero => intro m h; exact h
  | succ n ih =>
    intro m h
    by_cases hn : m.nbBytes < Max
    · have fall : ∀ m0, Safe Max m0 → readString_attempt P F
          (timeOutParam T (elapsedTime_ms prev (P.gettimeofday m.ticks))) (m.tick 1)
            = (none, m0) → Safe Max (readString_loop P prev F Max T (n + 1) m).2 := by
        intro m0 h0 ha
        rw [timed_check P prev F Max T m n hn m0 ha]
        by_cases hd : elapsedTime_ms prev (P.gettimeofday m0.ticks) > T
        · rw [if_pos hd]; exact Safe_marker Max (m0.tick 1) (Safe_tick Max m0 1 h0)
        · rw [if_neg hd]; exact ih _ (Safe_tick Max m0 1 h0)
      have h1 : Safe Max (m.tick 1) := Safe_tick Max m 1 h
      have hn1 : (m.tick 1).nbBytes < Max := hn
      rcases attempt_cases P F (timeOutParam T (elapsedTime_ms prev (P.gettimeofday m.ticks)))
        (m.tick 1) (by show m.nbBytes + 1 < 4294967296; omega) with
        ⟨_, ha⟩ | ⟨_, b, _, _, ha⟩ | ⟨_, _, ha⟩ | ⟨_, _, ha⟩ | ⟨_, _, ha⟩ | ⟨_, _, _, ha⟩
      · exact fall _ h1 ha
      · exact fall _ (Safe_push Max _ _ b h1 hn1) ha
      · rw [timed_return P prev F Max T m n hn _ _ ha]
        exact Safe_final Max _ _ F h1 hn1
      · exact fall _ (Safe_called Max _ _ h1) ha
      · rw [timed_return P prev F Max T m n hn _ _ ha]
        exact Safe_called Max _ _ h1
      · rw [timed_return P prev F Max T m n hn _ _ ha]
        exact Safe_called Max _ _ h1
    · rw [timed_full P prev F Max T m n hn]; exact h

theorem Safe_card (Max : Nat) (m : Machine) (h : Safe Max m) :
    m.stores.toFinset.card ≤ Max + 1 := by
  have hsub : m.stores.toFinset ⊆ Finset.range (Max + 1) := by
    intro i hi
    have := h.2 i (List.mem_toFinset.mp hi)
    exact Finset.mem_range.mpr (by omega)
  simpa using Finset.card_le_card hsub

/-- C6: for every final character, `maxNbBytes`, `timeOut_ms`, byte source and clock, and
after any number `fuel` of loop iterations (whether or not the call has returned by then),
every destination index stored to by `readStringNoTimeOut` or `readString`, for a received
byte or for the end-of-string marker, is at most `maxNbBytes`, so at most `maxNbBytes + 1`
distinct slots are stored to, and the count of accumulated bytes is at most `maxNbBytes`. -/
theorem read_write_bound (P : Platform) (buf : Nat → Byte) (t : Byte)
    (maxNbBytes timeOut_ms fuel : Nat) (hmax : maxNbBytes < 4294967296) :
    ((∀ i, i ∈ (readStringNoTimeOut fuel P buf t maxNbBytes).2.stores → i ≤ maxNbBytes)
      ∧ (readStringNoTimeOut fuel P buf t maxNbBytes).2.stores.toFinset.card ≤ maxNbBytes + 1
      ∧ (readStringNoTimeOut fuel P buf t maxNbBytes).2.nbBytes ≤ maxNbBytes)
    ∧ ((∀ i, i ∈ (readString fuel P buf t maxNbBytes timeOut_ms).2.stores → i ≤ maxNbBytes)
      ∧ (readString fuel P buf t maxNbBytes timeOut_ms).2.stores.toFinset.card
          ≤ maxNbBytes + 1
      ∧ (readString fuel P buf t maxNbBytes timeOut_ms).2.nbBytes ≤ maxNbBytes) := by
  have h1 : Safe maxNbBytes (readStringNoTimeOut fuel P buf t maxNbBytes).2 :=
    noTimeOut_safe P t maxNbBytes hmax fuel _ (Safe_start maxNbBytes buf 0)
  have h2 : Safe maxNbBytes (readString fuel P buf t maxNbBytes timeOut_ms).2 := by
    unfold readString
    by_cases hT : timeOut_ms = 0
    · rw [if_pos hT]; exact h1
    · rw [if_neg hT]
      exact timed_safe P _ t maxNbBytes timeOut_ms hmax fuel _ (Safe_start maxNbBytes buf 1)
  exact ⟨⟨h1.2, Safe_card _ _ h1, h1.1⟩, ⟨h2.2, Safe_card _ _ h2, h2.1⟩⟩

/-- C6, witness: the run on `"OK\r"` with `maxNbBytes = 10`. -/
theorem read_write_bound_witness :
    ((∀ i, i ∈ (readStringNoTimeOut 3 P_okcr blank 13 10).2.stores → i ≤ 10)
      ∧ (readStringNoTimeOut 3 P_okcr blank 13 10).2.stores.toFinset.card ≤ 10 + 1
      ∧ (readStringNoTimeOut 3 P_okcr blank 13 10).2.nbBytes ≤ 10)
    ∧ ((∀ i, i ∈ (readString 3 P_okcr blank 13 10 1000).2.stores → i ≤ 10)
      ∧ (readString 3 P_okcr blank 13 10 1000).2.stores.toFinset.card ≤ 10 + 1
      ∧ (readString 3 P_okcr blank 13 10 1000).2.nbBytes ≤ 10) :=
  read_write_bound P_okcr blank 13 10 1000 3 (by decide)

/-! ## C7: timer rollover -/

/-- C7: for every reference instant `(s0, u0)` and current instant `(s1, u1)` with
`0 ≤ u0, u1 ≤ 999999`, `(s1, u1)` not earlier than `(s0, u0)`, and a millisecond count that
fits an `int` (below `2^31`), `elapsedTime_ms` returns
`floor(((s1 - s0) * 1000000 + (u1 - u0)) / 1000)`, also when `u1 < u0`, where one second is
borrowed. -/
theorem elapsedTime_ms_rollover (s0 u0 s1 u1 : Int)
    (hu0 : 0 ≤ u0 ∧ u0 ≤ 999999) (hu1 : 0 ≤ u1 ∧ u1 ≤ 999999)
    (hle : s0 < s1 ∨ (s0 = s1 ∧ u0 ≤ u1))
    (hfit : ((s1 - s0) * 1000000 + (u1 - u0)) / 1000 < 2147483648) :
    (elapsedTime_ms ⟨s0, u0⟩ ⟨s1, u1⟩ : Int) = ((s1 - s0) * 1000000 + (u1 - u0)) / 1000 :=
  elapsedTime_ms_exact s0 u0 s1 u1 hu0 hu1 hle hfit

/-- C7, witness: reference (10 s, 900000 us), current (11 s, 100000 us) gives 200. -/
theorem elapsedTime_ms_rollover_witness :
    (elapsedTime_ms ⟨10, 900000⟩ ⟨11, 100000⟩ : Int)
        = ((11 - 10) * 1000000 + (100000 - 900000)) / 1000
      ∧ ((11 - 10) * 1000000 + (100000 - 900000) : Int) / 1000 = 200 :=
  ⟨elapsedTime_ms_rollover 10 900000 11 100000 (by decide) (by decide) (by decide) (by decide),
    by decide⟩

/-! ## C8: timer monotonicity -/

/-- C8 (as amended): for every reference instant `T0` and every two later instants
`T0 ≤ T1 ≤ T2`, all with a microsecond field in `[0, 999999]`, such that the millisecond
count from `T0` to `T2` fits an `int` (below `2^31`), the values returned by `elapsedTime_ms`
satisfy `elapsedTime_ms(T2) ≥ elapsedTime_ms(T1) ≥ 0`. -/
theorem elapsedTime_ms_monotone (s0 u0 s1 u1 s2 u2 : Int)
    (hu0 : 0 ≤ u0 ∧ u0 ≤ 999999) (hu1 : 0 ≤ u1 ∧ u1 ≤ 999999) (hu2 : 0 ≤ u2 ∧ u2 ≤ 999999)
    (h01 : s0 < s1 ∨ (s0 = s1 ∧ u0 ≤ u1)) (h12 : s1 < s2 ∨ (s1 = s2 ∧ u1 ≤ u2))
    (hfit : ((s2 - s0) * 1000000 + (u2 - u0)) / 1000 < 2147483648) :
    elapsedTime_ms ⟨s0, u0⟩ ⟨s1, u1⟩ ≤ elapsedTime_ms ⟨s0, u0⟩ ⟨s2, u2⟩
      ∧ (0 : Int) ≤ (elapsedTime_ms ⟨s0, u0⟩ ⟨s1, u1⟩ : Int) := by
  have h02 : s0 < s2 ∨ (s0 = s2 ∧ u0 ≤ u2) := by omega
  have e1 := elapsedTime_ms_exact s0 u0 s1 u1 hu0 hu1 h01 (by omega)
  have e2 := elapsedTime_ms_exact s0 u0 s2 u2 hu0 hu2 h02 hfit
  constructor
  · have : (elapsedTime_ms ⟨s0, u0⟩ ⟨s1, u1⟩ : Int) ≤ (elapsedTime_ms ⟨s0, u0⟩ ⟨s2, u2⟩ : Int) := by
      rw [e1, e2]; omega
    exact Int.ofNat_le.mp this
  · exact Int.ofNat_nonneg _

/-- C8, witness: `T0 = (10 s, 900000 us)`, `T1 = (11 s, 100000 us)`, `T2 = (12 s, 0 us)`. -/
theorem elapsedTime_ms_monotone_witness :
    elapsedTime_ms ⟨10, 900000⟩ ⟨11, 100000⟩ ≤ elapsedTime_ms ⟨10, 900000⟩ ⟨12, 0⟩
      ∧ (0 : Int) ≤ (elapsedTime_ms ⟨10, 900000⟩ ⟨11, 100000⟩ : Int) :=
  elapsedTime_ms_monotone 10 900000 11 100000 12 0 (by decide) (by decide) (by decide)
    (by decide) (by decide) (by decide)

/-- C8, counterexample to the claim as stated: with `T0 = (0 s, 0 us)`, `T1 = (1 s, 0 us)` and
`T2 = (4294968 s, 0 us)`, so that `T0 ≤ T1 ≤ T2`, the product `sec*1000` leaves the range of
`int` at `T2`, and `elapsedTime_ms` returns 1000 at `T1` and 704 at `T2`. -/
theorem elapsedTime_ms_monotone_counterexample :
    elapsedTime_ms ⟨0, 0⟩ ⟨1, 0⟩ = 1000 ∧ elapsedTime_ms ⟨0, 0⟩ ⟨4294968, 0⟩ = 704
      ∧ ¬ (elapsedTime_ms ⟨0, 0⟩ ⟨1, 0⟩ ≤ elapsedTime_ms ⟨0, 0⟩ ⟨4294968, 0⟩) := by
  decide

/-! ## C9: a zero timeout delegates to `readStringNoTimeOut` -/

theorem readChar_ticks (P : Platform) (m : Machine) (i T : Nat) :
    (readChar P m i T).2.ticks = m.ticks := by
  rcases readChar_cases P m i T with ⟨b, _, h⟩ | ⟨_, h⟩ | ⟨_, h⟩ | ⟨_, _, h⟩ <;> rw [h] <;> rfl

/-- The loop of `readStringNoTimeOut` never calls `gettimeofday`. -/
theorem noTimeOut_ticks (P : Platform) (F : Byte) (Max : Nat) (fuel : Nat) :
    ∀ m : Machine, (readStringNoTimeOut_loop P F Max fuel m).2.ticks = m.ticks := by
  induction fuel with
  | zero => intro m; rfl
  | succ n ih =>
    intro m
    have hr := readChar_ticks P m m.nbBytes readChar_default_TimeOut_ms
    rw [readStringNoTimeOut_loop]
    by_cases hn : m.nbBytes < Max
    · rw [if_pos hn]
      dsimp only
      split_ifs <;> simp only [ih, Machine.store, hr]
    · rw [if_neg hn]

/-- C9: for every destination buffer, final character, `maxNbBytes`, byte source and number
of iterations, `readString` called with `timeOut_ms = 0` gives the same return value and the
same final state (buffer contents included) as `readStringNoTimeOut` called with the same
arguments on the same source, and makes no call of `gettimeofday`. -/
theorem readString_zero_timeout (P : Platform) (buf : Nat → Byte) (t : Byte)
    (maxNbBytes fuel : Nat) :
    readString fuel P buf t maxNbBytes 0 = readStringNoTimeOut fuel P buf t maxNbBytes
      ∧ (readString fuel P buf t maxNbBytes 0).2.receivedString
          = (readStringNoTimeOut fuel P buf t maxNbBytes).2.receivedString
      ∧ (readString fuel P buf t maxNbBytes 0).2.ticks = 0 := by
  have h : readString fuel P buf t maxNbBytes 0
      = readStringNoTimeOut fuel P buf t maxNbBytes := by
    unfold readString
    rw [if_pos rfl]
  refine ⟨h, by rw [h], ?_⟩
  rw [h]
  unfold readStringNoTimeOut
  rw [noTimeOut_ticks]
  rfl

/-! ## C10: the deadline budget of an iteration -/

/-- Inside the range of `long int` the budget is exact: when `-2^31 ≤ timeOut_ms - e < 2^31`,
`timeOutParam` is `timeOut_ms - e`; when it is positive `readChar` is called with exactly that
timeout, and otherwise `readChar` is not called. -/
theorem readString_budget_in_range (P : Platform) (F : Byte) (T e : Nat) (m : Machine)
    (h1 : T < e + 2147483648) (h2 : e ≤ T + 2147483648) :
    timeOutParam T e = (T : Int) - (e : Int)
      ∧ (e < T → (readString_attempt P F (timeOutParam T e) m).2.calls = (T - e) :: m.calls)
      ∧ (T ≤ e → readString_attempt P F (timeOutParam T e) m = (none, m)) := by
  have hv : timeOutParam T e = (T : Int) - (e : Int) := by
    unfold timeOutParam wrapS32 wrapU32; omega
  refine ⟨hv, fun hlt => ?_, fun hle => ?_⟩
  · have hpos : timeOutParam T e > 0 := by rw [hv]; omega
    have hw : wrapU32 (timeOutParam T e) = T - e := by
      rw [hv]; unfold wrapU32; omega
    rw [readString_attempt, if_pos hpos, hw]
    rcases readChar_cases P m m.nbBytes (T - e) with ⟨b, _, h⟩ | ⟨_, h⟩ | ⟨_, h⟩ | ⟨_, _, h⟩
    · rw [h]
      simp only [Machine.store, Machine.called]
      split_ifs <;> rfl
    · rw [h]; rfl
    · rw [h]; rfl
    · rw [h]; rfl
  · exact attempt_skip P F _ m (by rw [hv]; omega)

/-- C10, failing inputs. First: `timeOut_ms = 4294967295` and an elapsed-time reading of 0, so
that `timeOut_ms - e > 0`: `timeOutParam` is `-1`, the iteration does not call `readChar` and
goes on to the deadline check (three calls of `gettimeofday`: `initTimer` and two readings).
Second: `timeOut_ms = 100` and an elapsed-time reading of 4294967000 (the wall clock was set
back by 296 ms), so that `timeOut_ms - e ≤ 0`: `timeOutParam` is 396 and `readChar` is called
with the timeout 396. -/
theorem readString_budget_failing_input :
    (reading P_x 0 = 0 ∧ timeOutParam 4294967295 0 = -1
      ∧ (readString 1 P_x blank 10 4 4294967295).2.calls = []
      ∧ (readString 1 P_x blank 10 4 4294967295).2.ticks = 3)
    ∧ (reading P_back 0 = 4294967000 ∧ timeOutParam 100 4294967000 = 396
      ∧ (readString 1 P_back blank 10 4 100).2.calls = [396]) := by
  decide

/-! ## C11: termination of the timeout-bounded read -/

/-- A positive `timeOutParam` is handed to `readChar` as a non-zero timeout. -/
theorem budget_pos (T e : Nat) (h : timeOutParam T e > 0) :
    0 < wrapU32 (timeOutParam T e) := by
  unfold timeOutParam wrapS32 wrapU32 at *
  omega

/-- Whatever the platform answers, a read attempt makes no call of `gettimeofday`, returns
only through the final-character exit or the error exit, and calls `readChar` at most once,
with the timeout `timeOutParam`, which is then positive. -/
theorem attempt_shape (P : Platform) (F : Byte) (tp : Int) (m : Machine) :
    (readString_attempt P F tp m).2.ticks = m.ticks
    ∧ (∀ ret, (readString_attempt P F tp m).1 = some ret →
        ret.site = Exit.terminator ∨ ret.site = Exit.error)
    ∧ ((readString_attempt P F tp m).2.calls = m.calls
      ∨ (tp > 0 ∧ (readString_attempt P F tp m).2.calls = wrapU32 tp :: m.calls)) := by
  by_cases htp : tp > 0
  · rw [readString_attempt, if_pos htp]
    rcases readChar_cases P m m.nbBytes (wrapU32 tp) with ⟨b, _, h⟩ | ⟨_, h⟩ | ⟨_, h⟩
        | ⟨_, _, h⟩
    · rw [h]
      dsimp only
      refine ⟨?_, ?_, Or.inr ⟨htp, ?_⟩⟩
      · split_ifs <;> rfl
      · intro ret hret
        split_ifs at hret <;> simp at hret <;> subst hret <;> simp
      · split_ifs <;> rfl
    · rw [h]
      exact ⟨rfl, fun ret hret => by simp at hret, Or.inr ⟨htp, rfl⟩⟩
    · rw [h]
      refine ⟨rfl, fun ret hret => ?_, Or.inr ⟨htp, rfl⟩⟩
      simp at hret
      subst hret
      exact Or.inr rfl
    · rw [h]
      refine ⟨rfl, fun ret hret => ?_, Or.inr ⟨htp, rfl⟩⟩
      simp at hret
      subst hret
      exact Or.inr rfl
  · rw [attempt_skip P F tp m htp]
    exact ⟨rfl, fun ret hret => by simp at hret, Or.inl rfl⟩


theorem pair_of_fst {α β : Type} (p : α × β) (a : α) (h : p.1 = a) : p = (a, p.2) := by
  rw [← h]

/-- One iteration of the loop of `readString` below the cap, seen through the outcome `a` of
its read attempt: either the attempt returns, through the final-character exit or the error
exit, or the deadline check follows. Every timeout handed to `readChar` is positive. -/
theorem timed_iteration (P : Platform) (prev : timeval) (F : Byte) (Max T : Nat) (m : Machine)
    (hn : m.nbBytes < Max) (hpos : ∀ c, c ∈ m.calls → 0 < c) :
    ∃ a : Option Return × Machine, a.2.ticks = m.ticks + 1
      ∧ (∀ c, c ∈ a.2.calls → 0 < c)
      ∧ (∀ ret, a.1 = some ret → (ret.site = Exit.terminator ∨ ret.site = Exit.error)
          ∧ ∀ fuel, readString_loop P prev F Max T (fuel + 1) m = (some ret, a.2))
      ∧ (a.1 = none → ∀ fuel, readString_loop P prev F Max T (fuel + 1) m
          = if elapsedTime_ms prev (P.gettimeofday a.2.ticks) > T
            then (some ⟨Exit.deadline, 0⟩, (a.2.tick 1).store a.2.nbBytes 0)
            else readString_loop P prev F Max T fuel (a.2.tick 1)) := by
  obtain ⟨ht, hsite, hcalls⟩ := attempt_shape P F
    (timeOutParam T (elapsedTime_ms prev (P.gettimeofday m.ticks))) (m.tick 1)
  refine ⟨readString_attempt P F
    (timeOutParam T (elapsedTime_ms prev (P.gettimeofday m.ticks))) (m.tick 1), ht, ?_, ?_, ?_⟩
  · intro c hc
    rcases hcalls with h | ⟨hp, h⟩
    · rw [h] at hc; exact hpos c hc
    · rw [h] at hc
      rcases List.mem_cons.mp hc with hc | hc
      · rw [hc]; exact budget_pos _ _ hp
      · exact hpos c hc
  · intro ret h1
    exact ⟨hsite ret h1, fun fuel =>
      timed_return P prev F Max T m fuel hn ret _ (pair_of_fst _ _ h1)⟩
  · intro h1 fuel
    exact timed_check P prev F Max T m fuel hn _ (pair_of_fst _ _ h1)

/-- The loop of `readString`, entered at iteration `j0`, when the deadline checks of
iterations `j0 .. j0 + N - 1` read at most `T` and the one of iteration `j0 + N` reads more
than `T`: the loop returns within `N + 1` iterations. `2 * j + 3` calls of `gettimeofday` have
been made when the deadline check of iteration `j` is left. -/
theorem timed_exit (P : Platform) (F : Byte) (Max T : Nat) :
    ∀ (N j0 : Nat) (m : Machine), m.ticks = 2 * j0 + 1 → (∀ c, c ∈ m.calls → 0 < c) →
      (∀ j, j0 ≤ j → j < j0 + N → reading P (2 * j + 1) ≤ T) →
      T < reading P (2 * (j0 + N) + 1) →
      ∃ r m1, (∀ fuel, readString_loop P (P.gettimeofday 0) F Max T (N + 1 + fuel) m
            = (some r, m1))
        ∧ (r.site = Exit.deadline → m1.ticks = 2 * (j0 + N) + 3)
        ∧ (r.site ≠ Exit.deadline → m1.ticks < 2 * (j0 + N) + 3)
        ∧ (∀ c, c ∈ m1.calls → 0 < c) := by
  intro N
  induction N with
  | zero =>
    intro j0 m hticks hpos _ hfire
    by_cases hn : m.nbBytes < Max
    · obtain ⟨a, ht, hpos1, hret, hchk⟩ :=
        timed_iteration P (P.gettimeofday 0) F Max T m hn hpos
      have hf : ∀ fuel, 0 + 1 + fuel = fuel + 1 := fun fuel => by omega
      cases h1 : a.1 with
      | some ret =>
        refine ⟨ret, a.2, fun fuel => ?_, ?_, ?_, hpos1⟩
        · rw [hf]; exact (hret ret h1).2 fuel
        · intro hd
          rcases (hret ret h1).1 with h | h <;> rw [h] at hd <;> cases hd
        · intro _
          omega
      | none =>
        have hyes : elapsedTime_ms (P.gettimeofday 0) (P.gettimeofday a.2.ticks) > T := by
          rw [ht, hticks]
          unfold reading at hfire
          exact hfire
        refine ⟨⟨Exit.deadline, 0⟩, (a.2.tick 1).store a.2.nbBytes 0, fun fuel => ?_, ?_, ?_,
          hpos1⟩
        · rw [hf, hchk h1 fuel, if_pos hyes]
        · intro _
          show a.2.ticks + 1 = _
          omega
        · intro h
          exact absurd rfl h
    · refine ⟨⟨Exit.full, -3⟩, m, fun fuel => ?_, ?_, ?_, hpos⟩
      · have hf : 0 + 1 + fuel = fuel + 1 := by omega
        rw [hf]
        exact timed_full P _ F Max T m fuel hn
      · intro h
        cases h
      · intro _
        omega
  | succ n ih =>
    intro j0 m hticks hpos hbefore hfire
    by_cases hn : m.nbBytes < Max
    · obtain ⟨a, ht, hpos1, hret, hchk⟩ :=
        timed_iteration P (P.gettimeofday 0) F Max T m hn hpos
      have hf : ∀ fuel, n + 1 + 1 + fuel = (n + 1 + fuel) + 1 := fun fuel => by omega
      cases h1 : a.1 with
      | some ret =>
        refine ⟨ret, a.2, fun fuel => ?_, ?_, ?_, hpos1⟩
        · rw [hf]; exact (hret ret h1).2 _
        · intro hd
          rcases (hret ret h1).1 with h | h <;> rw [h] at hd <;> cases hd
        · intro _
          omega
      | none =>
        have hno : ¬ elapsedTime_ms (P.gettimeofday 0) (P.gettimeofday a.2.ticks) > T := by
          have := hbefore j0 (by omega) (by omega)
          rw [ht, hticks]
          unfold reading at this
          omega
        have hshift : j0 + 1 + n = j0 + (n + 1) := by omega
        obtain ⟨r, m2, hrun, hd, hnd, hp2⟩ := ih (j0 + 1) (a.2.tick 1)
          (by show a.2.ticks + 1 = _; omega) hpos1
          (fun j hj1 hj2 => hbefore j (by omega) (by omega))
          (by rw [hshift]; exact hfire)
        rw [hshift] at hd hnd
        refine ⟨r, m2, fun fuel => ?_, hd, hnd, hp2⟩
        rw [hf, hchk h1 _, if_neg hno]
        exact hrun fuel
    · refine ⟨⟨Exit.full, -3⟩, m, fun fuel => ?_, ?_, ?_, hpos⟩
      · have hf : n + 1 + 1 + fuel = (n + 1 + fuel) + 1 := by omega
        rw [hf]
        exact timed_full P _ F Max T m _ hn
      · intro h
        cases h
      · intro _
        omega

theorem reading_mono (P : Platform) (hmono : ∀ i, reading P i ≤ reading P (i + 1))
    (i d : Nat) : reading P i ≤ reading P (i + d) := by
  induction d with
  | zero => exact Nat.le_refl _
  | succ n ih => exact Nat.le_trans ih (hmono (i + n))

theorem reading_P_mute (i : Nat) : reading P_mute i = if i < 3 then 0 else 51 := by
  unfold reading
  by_cases h : i < 3
  · have h4 : i + 1 < 4 := by omega
    simp only [P_mute, h4, h, if_true]
    decide
  · have h4 : ¬ i + 1 < 4 := by omega
    simp only [P_mute, h4, h, if_false]
    decide

/-- C11: for `readString` with `timeOut_ms > 0`, every `maxNbBytes`, every byte source (the
oracle answers every call of `readChar`, whatever the source does) and every clock whose
successive elapsed-time readings are non-decreasing and eventually exceed `timeOut_ms`, there
is a first iteration `N` whose deadline check reads more than `timeOut_ms`, and `readString`
returns within `N + 1` loop iterations, with the same result for every larger number of
iterations. If it leaves through the deadline exit it does so at the deadline check of
iteration `N` (`2 * N + 3` calls of `gettimeofday` made); otherwise the final character, the
cap or an error ended it before that check. Every call of `readChar` is given a non-zero
timeout. -/
theorem readString_terminates (P : Platform) (buf : Nat → Byte) (t : Byte)
    (maxNbBytes timeOut_ms : Nat) (hT : 0 < timeOut_ms)
    (hmono : ∀ i, reading P i ≤ reading P (i + 1))
    (hev : ∃ i, timeOut_ms < reading P i) :
    ∃ N r m, timeOut_ms < reading P (2 * N + 1)
      ∧ (∀ j, j < N → reading P (2 * j + 1) ≤ timeOut_ms)
      ∧ (∀ fuel, readString (N + 1 + fuel) P buf t maxNbBytes timeOut_ms = (some r, m))
      ∧ (r.site = Exit.deadline → m.ticks = 2 * N + 3)
      ∧ (r.site ≠ Exit.deadline → m.ticks < 2 * N + 3)
      ∧ (∀ c, c ∈ m.calls → 0 < c) := by
  classical
  obtain ⟨i, hi⟩ := hev
  have hex : ∃ j, timeOut_ms < reading P (2 * j + 1) := by
    refine ⟨i, ?_⟩
    have h := reading_mono P hmono i (i + 1)
    have he : i + (i + 1) = 2 * i + 1 := by omega
    rw [he] at h
    omega
  have hN := Nat.find_spec hex
  have hmin : ∀ j, j < Nat.find hex → reading P (2 * j + 1) ≤ timeOut_ms := by
    intro j hj
    have := Nat.find_min hex hj
    omega
  obtain ⟨r, m, hrun, hd, hnd, hpos⟩ := timed_exit P t maxNbBytes timeOut_ms (Nat.find hex) 0
    ((Machine.start buf).tick 1) rfl (fun c hc => by cases hc)
    (fun j _ hj => hmin j (by omega)) (by rw [Nat.zero_add]; exact hN)
  rw [Nat.zero_add] at hd hnd
  refine ⟨Nat.find hex, r, m, hN, hmin, fun fuel => ?_, hd, hnd, hpos⟩
  have hT0 : ¬ timeOut_ms = 0 := by omega
  unfold readString
  rw [if_neg hT0]
  exact hrun fuel

/-- C11, witness: a source that never delivers a byte, `maxNbBytes = 10`, `timeOut_ms = 50`,
elapsed-time readings 0, 0, 0, 51, 51, ...: the call returns 0 at the deadline check of the
second iteration. -/
theorem readString_terminates_witness :
    (∃ N r m, 50 < reading P_mute (2 * N + 1)
      ∧ (∀ j, j < N → reading P_mute (2 * j + 1) ≤ 50)
      ∧ (∀ fuel, readString (N + 1 + fuel) P_mute blank 10 10 50 = (some r, m))
      ∧ (r.site = Exit.deadline → m.ticks = 2 * N + 3)
      ∧ (r.site ≠ Exit.deadline → m.ticks < 2 * N + 3)
      ∧ (∀ c, c ∈ m.calls → 0 < c))
    ∧ (readString 2 P_mute blank 10 10 50).1 = some ⟨Exit.deadline, 0⟩
    ∧ (readString 2 P_mute blank 10 10 50).2.ticks = 5 :=
  ⟨readString_terminates P_mute blank 10 10 50 (by decide)
    (fun i => by
      rw [reading_P_mute, reading_P_mute]
      split_ifs <;> omega)
    ⟨3, by decide⟩, by decide, by decide⟩

end Serialib
